import Mathlib

/-!
Verification of the organizational-structure core: a shallow embedding of the
hierarchy builder / metrics engine (`processData` in `src/data/parser.ts`,
current version with `secondaryRoots`), the span-of-control classifier
(`getSoCStatus` in `src/lib/colors.ts`), the camera model
(`fitToBounds` in `src/hooks/useViewportCamera.ts`,
`constrainTransform` / `resetView` / zoom controls in
`src/components/views/OrgChartView.tsx`), and the circle-view layout pipeline
(`layoutData` in `src/components/views/LayeredCircleView.tsx`).

Modelling conventions:
* JavaScript `Map` objects are modelled as insertion-ordered association
  lists (`List (String × _)`); `Map.forEach` iteration order is insertion
  order, which the list preserves.  Mutation of a value stored in the map is
  modelled by `updF`, which rewrites the entry in place, preserving order.
* Node object references are modelled by node ids looked up in the arena:
  every `OrgNode` reference in the source lives in the `flatNodes` map, and
  `children` arrays of object references become `List String` of ids.
* JavaScript numbers used for FTE and camera arithmetic are modelled as `ℚ`
  (exact arithmetic); counters and depths are `Nat`.
* The unbounded recursion of `calculateMetrics` is modelled with an explicit
  `fuel` parameter; `processData` passes `flatNodes.size + 1` fuel, which is
  proved sufficient (the recursion depth is bounded by the number of distinct
  node ids on the active path).
* The department-color assignment (`getDepartmentColor`) feeds only the
  `color` display field, which no verified property reads; it is omitted.
-/

namespace OrgStruct

/-! ### Association-list primitives (JS `Map` model) -/

/-- First-match lookup in an insertion-ordered association list. -/
def alookup {α : Type} : List (String × α) → String → Option α
  | [], _ => none
  | (k, v) :: l, k' => if k' = k then some v else alookup l k'

/-- In-place update of the entry (or entries) with key `k`; models mutating
the object stored in a JS `Map` without changing insertion order. -/
def updF {α : Type} (l : List (String × α)) (k : String) (f : α → α) :
    List (String × α) :=
  l.map (fun p => if p.1 = k then (p.1, f p.2) else p)

/-! ### Data model (`src/data/schema.ts`) -/

/-- `SoCStatus` from `schema.ts`. -/
inductive SoCStatus where
  | low
  | ok
  | high
deriving DecidableEq, Repr

/-- A raw ingested row (`RawRow` in `schema.ts`, as produced by the CSV /
spreadsheet layer: string cells, any of which may be absent).  `none` means
the column is absent from the row.  `fte` cells are abstracted to their
numeric value (the source's `parseFloat`); an absent or blank cell is `none`.
`extraCols` lists further column names present in the row (only their names
matter, for column validation, e.g. `"Reports To"`). -/
structure RawRow where
  employee_id : Option String := none
  employee_name : Option String := none
  reports_to_id : Option String := none
  department_name : Option String := none
  subsidiary_name : Option String := none
  job_title : Option String := none
  location : Option String := none
  employment_type : Option String := none
  fte : Option ℚ := none
  matrix_primary_manager_id : Option String := none
  extraCols : List String := []
deriving DecidableEq, Repr

/-- The record data stored inside a node (the `data` field of `OrgNode`). -/
structure NodeData where
  employee_id : String
  employee_name : Option String
  reports_to_id : Option String
  department_name : Option String
  subsidiary_name : Option String
  job_title : Option String
  location : Option String
  employment_type : Option String
  fte : ℚ
  matrix_primary_manager_id : Option String
deriving DecidableEq, Repr

/-- `OrgNode` from `schema.ts`.  `children` holds ids into the `flatNodes`
arena (object references in the source). -/
structure OrgNode where
  id : String
  data : NodeData
  children : List String
  parentId : Option String
  depth : Nat
  total_descendants : Nat
  total_reports_cnt : Nat
  soc_headcount : Nat
  soc_fte : ℚ
  soc_status : SoCStatus
deriving DecidableEq, Repr

/-- `DatasetStats` from `schema.ts`. -/
structure DatasetStats where
  totalRows : Nat
  validRows : Nat
  orphanCount : Nat
  cycleCount : Nat
  roots : List String
deriving DecidableEq, Repr

/-- `ParseResult` from `schema.ts`. -/
structure ParseResult where
  root : Option OrgNode
  secondaryRoots : List OrgNode
  flatNodes : List (String × OrgNode)
  stats : DatasetStats
  errors : List String
deriving DecidableEq, Repr

/-! ### `src/lib/colors.ts` -/

/-- `getSoCStatus(headcount, low, high)`: `low` when strictly below the low
threshold, `high` when strictly above the high one, otherwise `ok`. -/
def getSoCStatus (headcount low high : ℤ) : SoCStatus :=
  if headcount < low then .low
  else if headcount > high then .high
  else .ok

/-! ### `processData` (`src/data/parser.ts`) — validation and construction -/

def emptyStats : DatasetStats :=
  { totalRows := 0, validRows := 0, orphanCount := 0, cycleCount := 0, roots := [] }

/-- `REQUIRED_COLS` from the parser. -/
def REQUIRED_COLS : List String := ["employee_id", "employee_name", "department_name"]

/-- `Object.keys(firstRow)` — the set of column names present in a row. -/
def rowKeys (r : RawRow) : List String :=
  (if r.employee_id.isSome then ["employee_id"] else []) ++
  (if r.employee_name.isSome then ["employee_name"] else []) ++
  (if r.reports_to_id.isSome then ["reports_to_id"] else []) ++
  (if r.department_name.isSome then ["department_name"] else []) ++
  (if r.subsidiary_name.isSome then ["subsidiary_name"] else []) ++
  (if r.job_title.isSome then ["job_title"] else []) ++
  (if r.location.isSome then ["location"] else []) ++
  (if r.employment_type.isSome then ["employment_type"] else []) ++
  (if r.fte.isSome then ["fte"] else []) ++
  (if r.matrix_primary_manager_id.isSome then ["matrix_primary_manager_id"] else []) ++
  r.extraCols

/-- Step 1 of `processData` (column validation).  Errors are pushed only when
some required column is missing AND neither `reports_to_id` nor `Reports To`
is present; inside that branch the second message is always added because
`reports_to_id` is known to be absent. -/
def validationErrors (keys : List String) : List String :=
  let missing := REQUIRED_COLS.filter (fun c => !(keys.contains c))
  if !missing.isEmpty && !(keys.contains "reports_to_id") && !(keys.contains "Reports To") then
    ["Missing required columns: " ++ String.intercalate ", " missing] ++
    (if !(keys.contains "reports_to_id") then ["Missing \x27reports_to_id\x27 column"] else [])
  else []

/-- JS `String.prototype.trim`: strip leading and trailing whitespace
(defined over the character list so that it evaluates inside the kernel;
`String.trim` itself does not kernel-reduce). -/
def jsTrim (s : String) : String :=
  ⟨((s.data.dropWhile Char.isWhitespace).reverse.dropWhile Char.isWhitespace).reverse⟩

/-- `row.employee_id?.toString().trim()` followed by the blank check
(`if (!id) return`). -/
def idOf (r : RawRow) : Option String :=
  match r.employee_id with
  | none => none
  | some s => let t := jsTrim s; if t = "" then none else some t

/-- `reports_to_id?.toString().trim() || null`. -/
def normId (o : Option String) : Option String :=
  match o with
  | none => none
  | some s => let t := jsTrim s; if t = "" then none else some t

/-- One iteration of the dedup pass of step 2: skip blank ids, first
occurrence wins. -/
def rowStep (m : List (String × RawRow)) (row : RawRow) : List (String × RawRow) :=
  match idOf row with
  | none => m
  | some id => if (alookup m id).isSome then m else m ++ [(id, row)]

/-- Step 2 of `processData`: deduplicate rows by trimmed identifier,
first occurrence wins; blank/absent identifiers are skipped. -/
def buildRowMap (rows : List RawRow) : List (String × RawRow) :=
  rows.foldl rowStep []

/-- Step 3 of `processData`: one fresh node per surviving row. -/
def makeNode (id : String) (row : RawRow) : OrgNode :=
  { id := id
    data :=
      { employee_id := id
        employee_name := row.employee_name
        reports_to_id := normId row.reports_to_id
        department_name := row.department_name
        subsidiary_name := row.subsidiary_name
        job_title := row.job_title
        location := row.location
        employment_type := row.employment_type
        fte := row.fte.getD 1
        matrix_primary_manager_id := row.matrix_primary_manager_id }
    children := []
    parentId := normId row.reports_to_id
    depth := 0
    total_descendants := 0
    total_reports_cnt := 0
    soc_headcount := 0
    soc_fte := 0
    soc_status := .ok }

def buildFlatNodes (rowMap : List (String × RawRow)) : List (String × OrgNode) :=
  rowMap.map (fun p => (p.1, makeNode p.1 p.2))

/-- Accumulator of step 4 (tree building). -/
structure BuildAcc where
  nodes : List (String × OrgNode)
  roots : List String
  orphanIds : List String
deriving Repr

/-- One iteration of the `flatNodes.forEach` loop of step 4: a node with no
(or blank) parent id becomes a root candidate; a node whose parent id resolves
is appended to that parent's `children`; otherwise the node is recorded as an
orphan and becomes a root candidate as well. -/
def buildStep (acc : BuildAcc) (id : String) : BuildAcc :=
  match alookup acc.nodes id with
  | none => acc
  | some node =>
    match node.parentId with
    | none => { acc with roots := acc.roots ++ [id] }
    | some p =>
      match alookup acc.nodes p with
      | some _ =>
          { acc with nodes := updF acc.nodes p (fun n => { n with children := n.children ++ [id] }) }
      | none =>
          { acc with roots := acc.roots ++ [id], orphanIds := acc.orphanIds ++ [id] }

def buildTree (flat : List (String × OrgNode)) : BuildAcc :=
  (flat.map (·.1)).foldl buildStep ⟨flat, [], []⟩

/-! ### `processData` step 5 — metrics, descendants, cycle guard -/

/-- The mutable state threaded through `calculateMetrics`: the node arena,
the `cycleDetected` flag and the `errors` array. -/
structure MState where
  nodes : List (String × OrgNode)
  cycleDetected : Bool
  errors : List String
deriving Repr

/-- The fold the source performs over a list of start ids
(`node.children.forEach` accumulating `descendants += 1 + calculateMetrics(...)`,
and `roots.forEach(r => calculateMetrics(r, 0))`, which only uses the state
part).  The loop accumulates on the left; this recursion groups the same
summands on the right, which is the same number by associativity of `+`. -/
def cmFold (f : MState → String → MState × Nat) : MState → List String → MState × Nat
  | st, [] => (st, 0)
  | st, c :: cs =>
    let r := f st c
    let rest := cmFold f r.1 cs
    (rest.1, (1 + r.2) + rest.2)

/-- The field updates `calculateMetrics` applies on first visiting a node:
depth, span-of-control headcount, and status (leaves are always `ok`,
otherwise `getSoCStatus` with the parse-time default thresholds 3 and 8). -/
def metricsNode (node : OrgNode) (d : Nat) : OrgNode :=
  { node with
      depth := d
      soc_headcount := node.children.length
      soc_status :=
        if node.children.length = 0 then SoCStatus.ok
        else getSoCStatus node.children.length 3 8 }

/-- Store the accumulated descendant count into a node. -/
def setTdF (cnt : Nat) : OrgNode → OrgNode :=
  fun n => { n with total_descendants := cnt }

/-- Replace the node arena of a metrics state. -/
def withNodes (st : MState) (nodes : List (String × OrgNode)) : MState :=
  { st with nodes := nodes }

/-- `calculateMetrics(node, d)` from the parser: the visited-on-active-path
guard records a cycle and returns 0; otherwise depth, span-of-control
headcount and status are set (leaves are always `ok`), children are traversed
recursively, and `total_descendants` is the accumulated
`Σ (1 + descendants(child))`.  The source backtracks
(`visited.delete(node.id)`), so each child call sees exactly
`visited ∪ {node.id}`; `fuel` bounds the recursion depth (the source relies
on the JS call stack). -/
def calculateMetrics :
    Nat → MState → List String → String → Nat → MState × Nat
  | 0, st, _, _, _ => (st, 0)
  | fuel + 1, st, visited, id, d =>
    if visited.contains id then
      ({ st with
          cycleDetected := true
          errors := st.errors ++
            ["Cycle detected involving user " ++
              (((alookup st.nodes id).bind (fun n => n.data.employee_name)).getD "undefined")] },
        0)
    else
      match alookup st.nodes id with
      | none => (st, 0)
      | some node =>
        let st1 := withNodes st (updF st.nodes id (fun _ => metricsNode node d))
        let res := cmFold (fun s c => calculateMetrics fuel s (id :: visited) c (d + 1)) st1 node.children
        (withNodes res.1 (updF res.1.nodes id (setTdF res.2)), res.2)

/-- Step 6's stable descending sort of the root candidates by
`(total_descendants + 1)` (JS `Array.prototype.sort` is stable): insert a
node coming earlier in the list before all strictly-smaller entries and
before none of the greater-or-equal ones. -/
def insertDesc (a : OrgNode) : List OrgNode → List OrgNode
  | [] => [a]
  | b :: l =>
    if a.total_descendants < b.total_descendants then b :: insertDesc a l
    else a :: b :: l

def sortRootsDesc : List OrgNode → List OrgNode
  | [] => []
  | a :: l => insertDesc a (sortRootsDesc l)

/-- `processData(rawData)` — the full construction pipeline of the current
parser (the version returning `secondaryRoots`). -/
def processData (rawData : List RawRow) : ParseResult :=
  match rawData with
  | [] =>
      { root := none, secondaryRoots := [], flatNodes := [],
        stats := emptyStats, errors := ["File is empty"] }
  | firstRow :: _ =>
    let errs := validationErrors (rowKeys firstRow)
    if errs.isEmpty then
      let rowMap := buildRowMap rawData
      let flat := buildFlatNodes rowMap
      let b := buildTree flat
      let fuel := flat.length + 1
      let st0 : MState := { nodes := b.nodes, cycleDetected := false, errors := [] }
      let stF := (cmFold (fun s r => calculateMetrics fuel s [] r 0) st0 b.roots).1
      let rootNodes := b.roots.filterMap (alookup stF.nodes)
      let rootsSorted := sortRootsDesc rootNodes
      let secondaryRoots := rootsSorted.tail
      { root := rootsSorted.head?
        secondaryRoots := secondaryRoots
        flatNodes := stF.nodes
        stats :=
          { totalRows := rawData.length
            validRows := flat.length
            orphanCount :=
              b.orphanIds.length +
                (secondaryRoots.map (fun r => 1 + r.total_descendants)).sum
            cycleCount := if stF.cycleDetected then 1 else 0
            roots := rootsSorted.map (·.id) }
        errors := stF.errors }
    else
      { root := none, secondaryRoots := [], flatNodes := [],
        stats := emptyStats, errors := errs }

/-! ### Named stages of the valid-input pipeline (the `let`-bound
intermediates of `processData`, exposed for the theorems).  `processData`
on a non-empty, column-valid input computes exactly these values. -/

def pdFlat (rawData : List RawRow) : List (String × OrgNode) :=
  buildFlatNodes (buildRowMap rawData)

def pdBuild (rawData : List RawRow) : BuildAcc :=
  buildTree (pdFlat rawData)

def pdFuel (rawData : List RawRow) : Nat :=
  (pdFlat rawData).length + 1

def pdStF (rawData : List RawRow) : MState :=
  (cmFold (fun s r => calculateMetrics (pdFuel rawData) s [] r 0)
    { nodes := (pdBuild rawData).nodes, cycleDetected := false, errors := [] }
    (pdBuild rawData).roots).1

def pdRootsSorted (rawData : List RawRow) : List OrgNode :=
  sortRootsDesc ((pdBuild rawData).roots.filterMap (alookup (pdStF rawData).nodes))

/-! ### Graph view of the committed arena -/

/-- The key list of an arena (`Map` keys, in insertion order). -/
def nkeys (l : List (String × OrgNode)) : List String := l.map (·.1)

/-- The children ids of `u` in arena `l` (empty when `u` is absent). -/
def childrenOfN (l : List (String × OrgNode)) (u : String) : List String :=
  ((alookup l u).map (·.children)).getD []

/-- The parent-to-child edge relation of an arena. -/
def nedge (l : List (String × OrgNode)) (u v : String) : Prop :=
  v ∈ childrenOfN l u

/-- Reachability along `children` edges inside an arena. -/
inductive ReachableFrom (m : List (String × OrgNode)) : String → String → Prop
  | refl (a : String) : ReachableFrom m a a
  | step {a b c : String} (n : OrgNode) :
      ReachableFrom m a b → alookup m b = some n → c ∈ n.children →
      ReachableFrom m a c

/-- The descendant-count invariant at node `j` of arena `m`: the stored
`total_descendants` is the sum over the children of
`1 + child.total_descendants`. -/
def tdInv (m : List (String × OrgNode)) (j : String) : Prop :=
  ∃ n, alookup m j = some n ∧
    n.total_descendants =
      ((n.children.map
        (fun c => 1 + ((alookup m c).map (·.total_descendants)).getD 0)).sum)

/-- Structural sanity of a committed arena, as produced by the tree-building
pass: distinct keys, key-consistent `id` fields, at most one parent per node
(each node object is appended to exactly one parent's `children`), duplicate-free
children lists, and children ids all present in the arena. -/
structure GoodGraph (base : List (String × OrgNode)) : Prop where
  nodup : (nkeys base).Nodup
  idEq : ∀ k n, alookup base k = some n → n.id = k
  up : ∀ u u' v, nedge base u v → nedge base u' v → u = u'
  cn : ∀ u, (childrenOfN base u).Nodup
  closed : ∀ u v, nedge base u v → v ∈ nkeys base

/-- The declared parent of key `j` in an arena (the stored `parentId`). -/
def parentOfF (flat : List (String × OrgNode)) (j : String) : Option String :=
  (alookup flat j).bind (·.parentId)

/-- The children list step 4 accumulates for key `i` once the ids in `P` have
been processed: the processed ids whose stored parent is `i`. -/
def buildChildren (flat : List (String × OrgNode)) (P : List String) (i : String) :
    List String :=
  P.filter (fun j => decide (parentOfF flat j = some i))

/-- Whether step 4 classifies `i` as a root candidate: no (blank) parent, or
a parent id absent from the arena. -/
def buildRootPred (flat : List (String × OrgNode)) (i : String) : Bool :=
  match parentOfF flat i with
  | none => true
  | some p => !((flat.map (·.1)).contains p)

/-- Whether step 4 classifies `i` as an orphan: a declared parent id that is
absent from the arena. -/
def buildOrphanPred (flat : List (String × OrgNode)) (i : String) : Bool :=
  match parentOfF flat i with
  | none => false
  | some p => !((flat.map (·.1)).contains p)

/-- The invariant of the step-4 fold after processing the prefix `P` of the
key list. -/
def BuildInv (flat : List (String × OrgNode)) (P : List String) (acc : BuildAcc) :
    Prop :=
  acc.nodes.map (·.1) = flat.map (·.1) ∧
  (∀ i, alookup acc.nodes i =
    (alookup flat i).map (fun n => { n with children := buildChildren flat P i })) ∧
  acc.roots = P.filter (buildRootPred flat) ∧
  acc.orphanIds = P.filter (buildOrphanPred flat)

/-- Everything except the computed metric fields of a node: what
`calculateMetrics` never writes. -/
def skelOf (n : OrgNode) : String × NodeData × List String × Option String :=
  (n.id, n.data, n.children, n.parentId)

/-- Two arenas agree on keys, order, and all non-metric fields. -/
def sameSkel (base l : List (String × OrgNode)) : Prop :=
  l.map (fun p => (p.1, skelOf p.2)) = base.map (fun p => (p.1, skelOf p.2))

/-- Stored `total_descendants` of `j` in a metrics state (0 when absent). -/
def tdOf (st : MState) (j : String) : Nat :=
  ((alookup st.nodes j).map (·.total_descendants)).getD 0

/-- Stored `depth` of `j` in a metrics state (0 when absent). -/
def depthOf (st : MState) (j : String) : Nat :=
  ((alookup st.nodes j).map (·.depth)).getD 0

/-- Postcondition of running the metrics fold over start ids `cs` (root
candidates, or the children of one node): `S` is the set of ids touched by
the traversal. -/
def FLout (base : List (String × OrgNode)) (st st' : MState) (V : List String)
    (cs : List String) (d : Nat) (cnt : Nat) : Prop :=
  ∃ S : Finset String,
    (∀ c ∈ cs, c ∈ S) ∧
    (∀ j ∈ S, j ∈ nkeys base) ∧
    (∀ j ∈ S, j ∉ V) ∧
    st'.errors = st.errors ∧
    st'.cycleDetected = st.cycleDetected ∧
    sameSkel base st'.nodes ∧
    (∀ j, j ∉ S → alookup st'.nodes j = alookup st.nodes j) ∧
    (∀ j ∈ S, ∀ c, nedge base j c → c ∈ S) ∧
    (∀ j ∈ S, tdOf st' j = ((childrenOfN base j).map (fun c => 1 + tdOf st' c)).sum) ∧
    (∀ j ∈ S, j ∉ cs → ∃ u ∈ S, nedge base u j ∧ depthOf st' j = depthOf st' u + 1) ∧
    (∀ c ∈ cs, depthOf st' c = d) ∧
    (∀ u v, nedge base u v → v ∈ S → v ∉ cs → u ∈ S) ∧
    cnt = ((cs.map (fun c => 1 + tdOf st' c)).sum) ∧
    S.card = cnt

/-! ### Camera / viewport model -/

/-- `ViewportTransform` from `useViewportCamera` (translation + uniform
scale); JS numbers modelled as `ℚ`. -/
structure ViewportTransform where
  x : ℚ
  y : ℚ
  k : ℚ
deriving DecidableEq, Repr

/-- The `bounds` argument of `fitToBounds`. -/
structure CamRect where
  x : ℚ
  y : ℚ
  width : ℚ
  height : ℚ
deriving DecidableEq, Repr

/-- `fitToBounds(bounds, padding)` from `useViewportCamera`: scale that fits
the padded viewport around the rect, clamped to `[minZoom, maxZoom]`, and the
translation centering the rect (`containerRef` extents passed explicitly). -/
def fitToBounds (minZoom maxZoom fullWidth fullHeight : ℚ)
    (bounds : CamRect) (padding : ℚ) : ViewportTransform :=
  let scale := min ((fullWidth - padding * 2) / bounds.width)
                   ((fullHeight - padding * 2) / bounds.height)
  let clampedScale := max minZoom (min maxZoom scale)
  { x := (fullWidth - bounds.width * clampedScale) / 2 - bounds.x * clampedScale
    y := (fullHeight - bounds.height * clampedScale) / 2 - bounds.y * clampedScale
    k := clampedScale }

/-- The layout bounds computed by `treeData` in `OrgChartView` (world-space
extents of the laid-out tree plus padding). -/
structure LayoutBounds where
  minX : ℚ
  maxX : ℚ
  minY : ℚ
  maxY : ℚ
deriving DecidableEq, Repr

/-- The safety margin of `constrainTransform` (`MARGIN = 200`): the minimum
amount of content, in pixels, that must remain on screen. -/
def MARGIN : ℚ := 200

/-- `constrainTransform` from `OrgChartView`: clamp the translation so at
least `MARGIN` pixels of the content bounds stay inside the viewport;
identity when no bounds are available. -/
def constrainTransform (t : ViewportTransform) (bounds : Option LayoutBounds)
    (vw vh : ℚ) : ViewportTransform :=
  match bounds with
  | none => t
  | some b =>
    let minTx := -b.maxX * t.k + MARGIN
    let maxTx := vw - b.minX * t.k - MARGIN
    let minTy := -b.maxY * t.k + MARGIN
    let maxTy := vh - b.minY * t.k - MARGIN
    { x := max minTx (min maxTx t.x)
      y := max minTy (min maxTy t.y)
      k := t.k }

/-- `zoomIn` in `OrgChartView`: scale ×1.2 capped at 5, then constrained. -/
def zoomInOp (t : ViewportTransform) (bounds : Option LayoutBounds)
    (vw vh : ℚ) : ViewportTransform :=
  constrainTransform { t with k := min (t.k * (6/5)) 5 } bounds vw vh

/-- `zoomOut` in `OrgChartView`: scale ÷1.2 floored at 0.2, then constrained. -/
def zoomOutOp (t : ViewportTransform) (bounds : Option LayoutBounds)
    (vw vh : ℚ) : ViewportTransform :=
  constrainTransform { t with k := max (t.k / (6/5)) (1/5) } bounds vw vh

/-- The pan-drag update of `handleMouseMove` in `OrgChartView`: absolute
translation from the drag origin, then constrained. -/
def panMoveOp (dragStart client : ℚ × ℚ) (t : ViewportTransform)
    (bounds : Option LayoutBounds) (vw vh : ℚ) : ViewportTransform :=
  constrainTransform
    { t with x := client.1 - dragStart.1, y := client.2 - dragStart.2 }
    bounds vw vh

/-- `resetView` in `OrgChartView`: sets the transform directly (the source
comments "resetView uses direct setTransform"), bypassing
`constrainTransform`. -/
def resetViewOp (vw : ℚ) : ViewportTransform :=
  { x := vw / 2, y := 100, k := 1 }

/-- The auto-center-on-selection effect in `OrgChartView`: also a direct
`setTransform`, bypassing `constrainTransform`. -/
def autoCenterOp (nodeX nodeY vw vh : ℚ) : ViewportTransform :=
  { x := -nodeX + vw / 2, y := -nodeY + vh / 2 - 100, k := 1 }

/-- The content box mapped through `t` is not entirely outside the viewport
(margin 0 — even stronger than "viewport plus a safety margin"): its
screen-space right/bottom edges are not left/above of the viewport, and its
left/top edges not beyond the right/bottom viewport edges. -/
def contentNotLost (t : ViewportTransform) (b : LayoutBounds) (vw vh : ℚ) : Prop :=
  0 ≤ b.maxX * t.k + t.x ∧ b.minX * t.k + t.x ≤ vw ∧
  0 ≤ b.maxY * t.k + t.y ∧ b.minY * t.k + t.y ≤ vh

/-! ### Circle-view layout pipeline (`LayeredCircleView.layoutData`) -/

/-- Structure-only tree: all that the d3 positional pass
(`d3.tree().size([2π,1])` with the depth-based separation) depends on. -/
inductive STree where
  | mk : List STree → STree
deriving Repr

/-- The underlying `OrgNode` tree as the circle layout reads and writes it:
department name (all the sibling comparator reads), the `_displayColor`
field written by the wedge-color pass, and the ordered children. -/
inductive LTree where
  | mk : String → Option String → List LTree → LTree
deriving Repr

def LTree.dept : LTree → String
  | .mk d _ _ => d

def LTree.kids : LTree → List LTree
  | .mk _ _ ks => ks

/-- Stable insertion of `a` into an already-sorted forest: `a` (the earlier
sibling) goes before every tree not strictly before it, matching the stable
JS `Array.prototype.sort` with comparator `before` ("strictly precedes"). -/
def insertForest (before : String → String → Bool) (a : LTree) :
    List LTree → List LTree
  | [] => [a]
  | b :: l =>
    if before b.dept a.dept then b :: insertForest before a l
    else a :: b :: l

def sortForest (before : String → String → Bool) : List LTree → List LTree
  | [] => []
  | a :: l => insertForest before a (sortForest before l)

/-- `d3.hierarchy(...).sort(comparator)`: sort every children list by the
comparator, recursively. -/
def sortLTree (before : String → String → Bool) : LTree → LTree
  | .mk d c ks =>
      .mk d c (sortForest before (ks.attach.map (fun x => sortLTree before x.1)))
decreasing_by
  have := List.sizeOf_lt_of_mem x.2
  simp only [LTree.mk.sizeOf_spec]
  omega

/-- `DISTINCT_PALETTE` from `LayeredCircleView`. -/
def DISTINCT_PALETTE : List String :=
  ["#E6194B", "#3CB44B", "#FFE119", "#4363D8", "#F58231", "#911EB4",
   "#42D4F4", "#F032E6", "#BFEF45", "#FABED4", "#469990", "#DCBEFF",
   "#9A6324", "#FFFAC8", "#800000", "#AAFFC3", "#808000", "#FFD8B1",
   "#000075", "#A9A9A9"]

/-- The `uniqueDepartments` insertion-ordered set built from the (sorted)
root children. -/
def uniqDepts (kids : List LTree) : List String :=
  kids.foldl (fun acc k => if acc.contains k.dept then acc else acc ++ [k.dept]) []

/-- `deptColorMap`: departments of the root's children, in encounter order,
mapped to palette entries cyclically. -/
def deptColorMap (sortedRoot : LTree) (d : String) : Option String :=
  match (uniqDepts sortedRoot.kids).indexOf? d with
  | none => none
  | some i => some ((DISTINCT_PALETTE.get? (i % DISTINCT_PALETTE.length)).getD "")

/-- Paint an entire subtree with one `_displayColor` (every node below a
depth-1 branch gets that branch's department color). -/
def paintAll (c : Option String) : LTree → LTree
  | .mk d _ ks => .mk d c (ks.attach.map (fun x => paintAll c x.1))
decreasing_by
  have := List.sizeOf_lt_of_mem x.2
  simp only [LTree.mk.sizeOf_spec]
  omega

/-- The `root.each` wedge-color pass as it acts on the underlying tree: each
depth-1 subtree is painted with its branch department's mapped color; the
root itself is left untouched. -/
def colorizeUnder (m : String → Option String) : LTree → LTree
  | .mk d c ks => .mk d c (ks.map (fun k => paintAll (m k.dept) k))

/-- Forget department names and colors, keeping only the shape (the input of
the positional pass). -/
def shapeOf : LTree → STree
  | .mk _ _ ks => .mk (ks.attach.map (fun x => shapeOf x.1))
decreasing_by
  have := List.sizeOf_lt_of_mem x.2
  simp only [LTree.mk.sizeOf_spec]
  omega

/-- Erase the `_displayColor` fields. -/
def decolor : LTree → LTree
  | .mk d _ ks => .mk d none (ks.attach.map (fun x => decolor x.1))
decreasing_by
  have := List.sizeOf_lt_of_mem x.2
  simp only [LTree.mk.sizeOf_spec]
  omega

/-- One run of the circle view's `layoutData` over the underlying tree:
build the sorted hierarchy, hand its shape to the (external, deterministic)
d3 positional pass `pos`, and return the coordinates together with the
underlying tree as mutated by the wedge-color pass (the only write-back into
shared data). -/
def layoutCircle (pos : STree → List (ℚ × ℚ)) (before : String → String → Bool)
    (t : LTree) : (List (ℚ × ℚ)) × LTree :=
  let sorted := sortLTree before t
  (pos (shapeOf sorted), colorizeUnder (deptColorMap sorted) t)

/-- One run of `OrgChartView.treeData`'s positional pass (no sort, no
mutation): coordinates from the tree's shape. -/
def layoutChart (pos : STree → List (ℚ × ℚ)) (t : LTree) : List (ℚ × ℚ) :=
  pos (shapeOf t)

/-! ### Derived observations used in the verified statements -/

/-- The sum of `(1 + total_descendants)` over all root candidates of a parse
result: the primary root (when present) followed by the secondary roots. -/
def sumRootCandidates (res : ParseResult) : Nat :=
  ((res.root.toList ++ res.secondaryRoots).map (fun n => 1 + n.total_descendants)).sum

/-- The condition under which `processData` aborts with a fatal error: empty
input, or the first row both lacks a required column and has neither a
`reports_to_id` nor a `Reports To` column. -/
def fatalCond (rawData : List RawRow) : Prop :=
  match rawData with
  | [] => True
  | firstRow :: _ =>
      (∃ col ∈ REQUIRED_COLS, col ∉ rowKeys firstRow) ∧
      "reports_to_id" ∉ rowKeys firstRow ∧ "Reports To" ∉ rowKeys firstRow

/-- The orphan ids observable in a committed arena: keys whose stored
`parentId` is a non-blank id absent from the arena. -/
def outOrphans (m : List (String × OrgNode)) : List String :=
  (m.map (·.1)).filter (fun i =>
    match (alookup m i).bind (·.parentId) with
    | none => false
    | some p => !((m.map (·.1)).contains p))

/-- The sum of the stored FTE values over the children of node `i`. -/
def childrenFteSum (m : List (String × OrgNode)) (i : String) : ℚ :=
  ((childrenOfN m i).map (fun c => ((alookup m c).map (·.data.fte)).getD 0)).sum

/-! ### Concrete inputs used by the witnesses and counterexamples -/

/-- Three rows whose manager references form the loop A→B→C→A. -/
def cycleRows : List RawRow :=
  [ { employee_id := some "A", employee_name := some "Alice",
      reports_to_id := some "B", department_name := some "Eng" },
    { employee_id := some "B", employee_name := some "Bob",
      reports_to_id := some "C", department_name := some "Eng" },
    { employee_id := some "C", employee_name := some "Carol",
      reports_to_id := some "A", department_name := some "Eng" } ]

/-- A root row and one report (default FTE 1). -/
def pairRows : List RawRow :=
  [ { employee_id := some "A", employee_name := some "Alice",
      reports_to_id := some "", department_name := some "Eng" },
    { employee_id := some "B", employee_name := some "Bob",
      reports_to_id := some "A", department_name := some "Eng" } ]

/-- An orphan ("A" reports to the unknown "X") heading the largest tree
(children "B", "C"), next to the lone true root "D". -/
def orphanRows : List RawRow :=
  [ { employee_id := some "A", employee_name := some "Alice",
      reports_to_id := some "X", department_name := some "Eng" },
    { employee_id := some "B", employee_name := some "Bob",
      reports_to_id := some "A", department_name := some "Eng" },
    { employee_id := some "C", employee_name := some "Carol",
      reports_to_id := some "A", department_name := some "Eng" },
    { employee_id := some "D", employee_name := some "Dan",
      reports_to_id := some "", department_name := some "Ops" } ]

/-- A first row lacking `employee_id` while a `reports_to_id` column is
present. -/
def noIdRows : List RawRow :=
  [ { employee_name := some "Alice", reports_to_id := some "",
      department_name := some "Eng" } ]

/-- A single self-contained row. -/
def singleRow : List RawRow :=
  [ { employee_id := some "A", employee_name := some "Alice",
      reports_to_id := some "", department_name := some "Eng" } ]

/-- The primary root produced from `pairRows` (used to instantiate the
descendant-count invariant at a concrete input). -/
def pairRoot : OrgNode :=
  ((processData pairRows).root).getD (makeNode "" {})

/-- The arena entry of `"A"` in the `pairRows` result. -/
def pairNodeA : OrgNode :=
  (alookup (processData pairRows).flatNodes "A").getD (makeNode "" {})

/-! ## Lemmas: association-list primitives -/

theorem alookup_isSome_iff {α : Type} (l : List (String × α)) (k : String) :
    (alookup l k).isSome ↔ k ∈ l.map (·.1) := by
  induction l with
  | nil => simp [alookup]
  | cons p l ih =>
    obtain ⟨k0, v⟩ := p
    by_cases h : k = k0
    · subst h; simp [alookup]
    · simp [alookup, h, ih]

theorem alookup_eq_none_iff {α : Type} (l : List (String × α)) (k : String) :
    alookup l k = none ↔ k ∉ l.map (·.1) := by
  rw [← alookup_isSome_iff, Option.not_isSome_iff_eq_none]

theorem alookup_mem {α : Type} {l : List (String × α)} {k : String} {v : α}
    (h : alookup l k = some v) : (k, v) ∈ l := by
  induction l with
  | nil => simp [alookup] at h
  | cons p l ih =>
    obtain ⟨k0, v0⟩ := p
    by_cases hk : k = k0
    · subst hk
      simp [alookup] at h
      subst h
      exact List.mem_cons_self _ _
    · simp [alookup, hk] at h
      exact List.mem_cons_of_mem _ (ih h)

theorem updF_cons {α : Type} (k0 : String) (v : α) (l : List (String × α))
    (k : String) (f : α → α) :
    updF ((k0, v) :: l) k f =
      (if k0 = k then (k0, f v) else (k0, v)) :: updF l k f := by
  by_cases h : k0 = k <;> simp [updF, h]

theorem alookup_updF {α : Type} (l : List (String × α)) (k k' : String) (f : α → α) :
    alookup (updF l k f) k' = if k' = k then (alookup l k').map f else alookup l k' := by
  induction l with
  | nil => simp [alookup, updF]
  | cons p l ih =>
    obtain ⟨k0, v⟩ := p
    rw [updF_cons]
    by_cases h0 : k0 = k
    · rw [if_pos h0]
      subst h0
      by_cases h1 : k' = k0
      · subst h1; simp [alookup]
      · simp [alookup, h1, ih]
    · rw [if_neg h0]
      by_cases h1 : k' = k0
      · subst h1
        simp [alookup, h0]
      · simp [alookup, h0, h1, ih]

theorem updF_map_fst {α : Type} (l : List (String × α)) (k : String) (f : α → α) :
    (updF l k f).map (·.1) = l.map (·.1) := by
  induction l with
  | nil => rfl
  | cons p l ih =>
    obtain ⟨k0, v⟩ := p
    by_cases h : k0 = k <;> simp [updF, h] <;> simpa [updF] using ih

theorem alookup_of_map_eq {α β : Type} {g : α → β} :
    ∀ {l₁ l₂ : List (String × α)},
      l₁.map (fun p => (p.1, g p.2)) = l₂.map (fun p => (p.1, g p.2)) →
      ∀ k, (alookup l₁ k).map g = (alookup l₂ k).map g := by
  intro l₁
  induction l₁ with
  | nil =>
    intro l₂ h k
    cases l₂ with
    | nil => rfl
    | cons q l₂ => simp at h
  | cons p l₁ ih =>
    intro l₂ h k
    cases l₂ with
    | nil => simp at h
    | cons q l₂ =>
      obtain ⟨k1, v1⟩ := p
      obtain ⟨k2, v2⟩ := q
      simp only [List.map_cons, List.cons.injEq, Prod.mk.injEq] at h
      obtain ⟨⟨hk, hv⟩, ht⟩ := h
      subst hk
      by_cases hq : k = k1
      · subst hq; simp [alookup, hv]
      · simp [alookup, hq, ih ht k]

/-! ## Lemmas: skeleton preservation -/

theorem sameSkel_refl (l : List (String × OrgNode)) : sameSkel l l := rfl

theorem sameSkel_lookup {base l : List (String × OrgNode)} (h : sameSkel base l)
    (k : String) : (alookup l k).map skelOf = (alookup base k).map skelOf :=
  alookup_of_map_eq h k

theorem sameSkel_keys {base l : List (String × OrgNode)} (h : sameSkel base l) :
    l.map (·.1) = base.map (·.1) := by
  have := congrArg (List.map (·.1)) h
  simpa [List.map_map, Function.comp] using this

theorem sameSkel_children {base l : List (String × OrgNode)} (h : sameSkel base l)
    (k : String) :
    (alookup l k).map (·.children) = (alookup base k).map (·.children) := by
  have h1 := sameSkel_lookup h k
  have h2 := congrArg (Option.map (fun s : String × NodeData × List String × Option String => s.2.2.1)) h1
  simpa [Option.map_map, Function.comp, skelOf] using h2

theorem sameSkel_id {base l : List (String × OrgNode)} (h : sameSkel base l)
    (k : String) :
    (alookup l k).map (·.id) = (alookup base k).map (·.id) := by
  have h1 := sameSkel_lookup h k
  have h2 := congrArg (Option.map (fun s : String × NodeData × List String × Option String => s.1)) h1
  simpa [Option.map_map, Function.comp, skelOf] using h2

theorem sameSkel_parentId {base l : List (String × OrgNode)} (h : sameSkel base l)
    (k : String) :
    (alookup l k).map (·.parentId) = (alookup base k).map (·.parentId) := by
  have h1 := sameSkel_lookup h k
  have h2 := congrArg (Option.map (fun s : String × NodeData × List String × Option String => s.2.2.2)) h1
  simpa [Option.map_map, Function.comp, skelOf] using h2

theorem sameSkel_updF {base l : List (String × OrgNode)} (h : sameSkel base l)
    (k : String) {f : OrgNode → OrgNode} (hf : ∀ a, skelOf (f a) = skelOf a) :
    sameSkel base (updF l k f) := by
  unfold sameSkel at h ⊢
  rw [← h]
  unfold updF
  rw [List.map_map]
  apply List.map_congr_left
  intro p _
  by_cases hp : p.1 = k <;> simp [hp, hf]

theorem sameSkel_trans {a b c : List (String × OrgNode)} (h1 : sameSkel a b)
    (h2 : sameSkel b c) : sameSkel a c := by
  unfold sameSkel at *
  rw [h2, h1]

/-! ## Lemmas: row deduplication (step 2) and node creation (step 3) -/

theorem alookup_append {α : Type} (l₁ l₂ : List (String × α)) (k : String) :
    alookup (l₁ ++ l₂) k =
      match alookup l₁ k with
      | some v => some v
      | none => alookup l₂ k := by
  induction l₁ with
  | nil => simp [alookup]
  | cons p l ih =>
    obtain ⟨k0, v⟩ := p
    by_cases h : k = k0
    · subst h; simp [alookup]
    · simp [alookup, h, ih]

theorem buildRowMap_go (rows : List RawRow) :
    ∀ m : List (String × RawRow), (m.map (·.1)).Nodup →
      ((rows.foldl rowStep m).map (·.1)).Nodup ∧
      (∀ k, k ∈ (rows.foldl rowStep m).map (·.1) ↔
        k ∈ m.map (·.1) ∨ ∃ r ∈ rows, idOf r = some k) := by
  induction rows with
  | nil =>
    intro m hm
    refine ⟨hm, fun k => ?_⟩
    simp
  | cons row rows ih =>
    intro m hm
    rw [List.foldl_cons]
    rcases hrow : idOf row with _ | id
    · have hstep : rowStep m row = m := by simp [rowStep, hrow]
      rw [hstep]
      obtain ⟨h1, h2⟩ := ih m hm
      refine ⟨h1, fun k => ?_⟩
      rw [h2 k]
      simp only [List.exists_mem_cons_iff, hrow]
      constructor
      · rintro (h | h)
        · exact Or.inl h
        · exact Or.inr (Or.inr h)
      · rintro (h | h | h)
        · exact Or.inl h
        · cases h
        · exact Or.inr h
    · by_cases hs : (alookup m id).isSome
      · have hstep : rowStep m row = m := by simp [rowStep, hrow, hs]
        rw [hstep]
        obtain ⟨h1, h2⟩ := ih m hm
        refine ⟨h1, fun k => ?_⟩
        rw [h2 k]
        have hidmem : id ∈ m.map (·.1) := (alookup_isSome_iff m id).mp hs
        simp only [List.exists_mem_cons_iff, hrow]
        constructor
        · rintro (h | h)
          · exact Or.inl h
          · exact Or.inr (Or.inr h)
        · rintro (h | h | h)
          · exact Or.inl h
          · cases h; exact Or.inl hidmem
          · exact Or.inr h
      · have hnone : alookup m id = none := Option.not_isSome_iff_eq_none.mp hs
        have hstep : rowStep m row = m ++ [(id, row)] := by simp [rowStep, hrow, hs]
        rw [hstep]
        have hid_not : id ∉ m.map (·.1) := (alookup_eq_none_iff m id).mp hnone
        have hm' : ((m ++ [(id, row)]).map (·.1)).Nodup := by
          rw [List.map_append]
          simp [List.nodup_append, hm, hid_not]
        obtain ⟨h1, h2⟩ := ih _ hm'
        refine ⟨h1, fun k => ?_⟩
        rw [h2 k]
        simp only [List.map_append, List.mem_append, List.exists_mem_cons_iff, hrow,
          List.map_cons, List.map_nil, List.mem_singleton]
        constructor
        · rintro ((h | h) | h)
          · exact Or.inl h
          · exact Or.inr (Or.inl (by simpa using h.symm))
          · exact Or.inr (Or.inr h)
        · rintro (h | h | h)
          · exact Or.inl (Or.inl h)
          · exact Or.inl (Or.inr (by simpa using h.symm))
          · exact Or.inr h

theorem buildRowMap_nodup (rows : List RawRow) :
    ((buildRowMap rows).map (·.1)).Nodup :=
  (buildRowMap_go rows [] (by simp)).1

theorem buildRowMap_mem (rows : List RawRow) (k : String) :
    k ∈ (buildRowMap rows).map (·.1) ↔ ∃ r ∈ rows, idOf r = some k := by
  have := (buildRowMap_go rows [] (by simp)).2 k
  simpa [buildRowMap] using this

theorem alookup_mapWithKey {α β : Type} (f : String → α → β) (l : List (String × α))
    (k : String) :
    alookup (l.map (fun p => (p.1, f p.1 p.2))) k = (alookup l k).map (f k) := by
  induction l with
  | nil => rfl
  | cons p l ih =>
    obtain ⟨k0, v⟩ := p
    by_cases h : k = k0
    · subst h; simp [alookup]
    · simp [alookup, h, ih]

theorem buildFlatNodes_keys (rm : List (String × RawRow)) :
    (buildFlatNodes rm).map (·.1) = rm.map (·.1) := by
  simp [buildFlatNodes, List.map_map, Function.comp]

theorem buildFlatNodes_lookup (rm : List (String × RawRow)) (k : String) :
    alookup (buildFlatNodes rm) k = (alookup rm k).map (makeNode k) :=
  alookup_mapWithKey makeNode rm k

/-! ## Lemmas: tree building (step 4) -/

theorem buildChildren_append (flat : List (String × OrgNode)) (P : List String)
    (i k : String) :
    buildChildren flat (P ++ [i]) k =
      buildChildren flat P k ++
        (if parentOfF flat i = some k then [i] else []) := by
  unfold buildChildren
  rw [List.filter_append]
  by_cases h : parentOfF flat i = some k <;> simp [h]

theorem filter_append_singleton {p : String → Bool} (P : List String) (i : String) :
    (P ++ [i]).filter p = P.filter p ++ (if p i then [i] else []) := by
  rw [List.filter_append]
  by_cases h : p i <;> simp [h]

theorem buildStep_inv (flat : List (String × OrgNode)) (P : List String)
    (acc : BuildAcc) (i : String) (hikey : i ∈ flat.map (·.1))
    (hinv : BuildInv flat P acc) :
    BuildInv flat (P ++ [i]) (buildStep acc i) := by
  obtain ⟨hkeys, hlook, hroots, horph⟩ := hinv
  obtain ⟨ni, hni⟩ := Option.isSome_iff_exists.mp ((alookup_isSome_iff flat i).mpr hikey)
  have hacc_i : alookup acc.nodes i = some { ni with children := buildChildren flat P i } := by
    rw [hlook i, hni]; rfl
  have hparF : parentOfF flat i = ni.parentId := by
    simp [parentOfF, hni]
  unfold buildStep
  rw [hacc_i]
  rcases hpar : ni.parentId with _ | p
  · -- no (blank) parent id: root candidate, nodes untouched
    simp only [hpar]
    refine ⟨hkeys, ?_, ?_, ?_⟩
    · intro k
      rw [hlook k, buildChildren_append]
      have : parentOfF flat i ≠ some k := by rw [hparF, hpar]; simp
      simp [this]
    · rw [filter_append_singleton]
      have ht : buildRootPred flat i = true := by
        unfold buildRootPred
        rw [hparF, hpar]
      simp [ht, hroots]
    · rw [filter_append_singleton]
      have ht : buildOrphanPred flat i = false := by
        unfold buildOrphanPred
        rw [hparF, hpar]
      simp [ht, horph]
  · have hkeq : acc.nodes.map (·.1) = flat.map (·.1) := hkeys
    simp only [hpar]
    rcases hq : alookup acc.nodes p with _ | pn
    · -- declared parent absent: orphan, also a root candidate
      have hpnot : p ∉ flat.map (·.1) := by
        rw [← hkeq]
        exact (alookup_eq_none_iff acc.nodes p).mp hq
      refine ⟨hkeys, ?_, ?_, ?_⟩
      · intro k
        rw [hlook k, buildChildren_append]
        by_cases hk : k = p
        · subst hk
          have hfn : alookup flat k = none := (alookup_eq_none_iff flat k).mpr hpnot
          simp [hfn]
        · have : parentOfF flat i ≠ some k := by
            rw [hparF, hpar]
            simp
            exact fun h => hk h.symm
          simp [this]
      · rw [filter_append_singleton]
        have ht : buildRootPred flat i = true := by
          unfold buildRootPred
          rw [hparF, hpar]
          simp [hpnot]
        simp [ht, hroots]
      · rw [filter_append_singleton]
        have ht : buildOrphanPred flat i = true := by
          unfold buildOrphanPred
          rw [hparF, hpar]
          simp [hpnot]
        simp [ht, horph]
    · -- parent found: append i to its children
      have hpmem : p ∈ flat.map (·.1) := by
        rw [← hkeq]
        exact (alookup_isSome_iff acc.nodes p).mp (by simp [hq])
      refine ⟨?_, ?_, ?_, ?_⟩
      · rw [updF_map_fst]; exact hkeys
      · intro k
        rw [alookup_updF]
        by_cases hk : k = p
        · subst hk
          rw [if_pos rfl, hlook k, buildChildren_append, hparF, hpar]
          rcases hfk : alookup flat k with _ | nk
          · simp
          · simp
        · rw [if_neg hk, hlook k, buildChildren_append]
          have : parentOfF flat i ≠ some k := by
            rw [hparF, hpar]
            simp
            exact fun h => hk h.symm
          simp [this]
      · rw [filter_append_singleton]
        have ht : buildRootPred flat i = false := by
          unfold buildRootPred
          rw [hparF, hpar]
          simp [hpmem]
        simp [ht, hroots]
      · rw [filter_append_singleton]
        have ht : buildOrphanPred flat i = false := by
          unfold buildOrphanPred
          rw [hparF, hpar]
          simp [hpmem]
        simp [ht, horph]

theorem buildTree_go (flat : List (String × OrgNode)) :
    ∀ (Q P : List String) (acc : BuildAcc),
      flat.map (·.1) = P ++ Q →
      BuildInv flat P acc →
      BuildInv flat (P ++ Q) (Q.foldl buildStep acc) := by
  intro Q
  induction Q with
  | nil =>
    intro P acc h hinv
    simpa using hinv
  | cons i Q ih =>
    intro P acc hPQ hinv
    rw [List.foldl_cons]
    have hikey : i ∈ flat.map (·.1) := by
      rw [hPQ]; simp
    have h1 : flat.map (·.1) = (P ++ [i]) ++ Q := by
      rw [hPQ]; simp
    have := ih (P ++ [i]) (buildStep acc i) h1 (buildStep_inv flat P acc i hikey hinv)
    simpa [List.append_assoc] using this

theorem buildTree_spec (flat : List (String × OrgNode))
    (hch : ∀ k n, alookup flat k = some n → n.children = []) :
    BuildInv flat (flat.map (·.1)) (buildTree flat) := by
  have hbase : BuildInv flat [] ⟨flat, [], []⟩ := by
    refine ⟨rfl, ?_, rfl, rfl⟩
    intro k
    rcases hfk : alookup flat k with _ | nk
    · rfl
    · have hc := hch k nk hfk
      cases nk
      simp only [buildChildren, List.filter_nil, Option.map_some']
      simp_all
  have := buildTree_go flat (flat.map (·.1)) [] ⟨flat, [], []⟩ (by simp) hbase
  simpa [buildTree] using this

/-! ## Lemmas: the committed arena as a graph -/

theorem mem_buildChildren (flat : List (String × OrgNode)) (P : List String)
    (i j : String) :
    j ∈ buildChildren flat P i ↔ j ∈ P ∧ parentOfF flat j = some i := by
  simp [buildChildren]

theorem build_keys (flat : List (String × OrgNode))
    (hch : ∀ k n, alookup flat k = some n → n.children = []) :
    (buildTree flat).nodes.map (·.1) = flat.map (·.1) :=
  (buildTree_spec flat hch).1

theorem build_lookup (flat : List (String × OrgNode))
    (hch : ∀ k n, alookup flat k = some n → n.children = []) (i : String) :
    alookup (buildTree flat).nodes i =
      (alookup flat i).map
        (fun n => { n with children := buildChildren flat (flat.map (·.1)) i }) :=
  (buildTree_spec flat hch).2.1 i

theorem build_roots_eq (flat : List (String × OrgNode))
    (hch : ∀ k n, alookup flat k = some n → n.children = []) :
    (buildTree flat).roots = (flat.map (·.1)).filter (buildRootPred flat) :=
  (buildTree_spec flat hch).2.2.1

theorem build_orphans_eq (flat : List (String × OrgNode))
    (hch : ∀ k n, alookup flat k = some n → n.children = []) :
    (buildTree flat).orphanIds = (flat.map (·.1)).filter (buildOrphanPred flat) :=
  (buildTree_spec flat hch).2.2.2

theorem build_nedge_iff (flat : List (String × OrgNode))
    (hch : ∀ k n, alookup flat k = some n → n.children = []) (u v : String) :
    nedge (buildTree flat).nodes u v ↔
      u ∈ flat.map (·.1) ∧ v ∈ flat.map (·.1) ∧ parentOfF flat v = some u := by
  unfold nedge childrenOfN
  rw [build_lookup flat hch u]
  rcases hu : alookup flat u with _ | nu
  · have hnm : u ∉ flat.map (·.1) := (alookup_eq_none_iff flat u).mp hu
    simp [hnm]
  · have hmem : u ∈ flat.map (·.1) := by
      rw [← alookup_isSome_iff]
      simp [hu]
    simp [mem_buildChildren, hmem]

theorem build_goodGraph (flat : List (String × OrgNode))
    (hnd : (flat.map (·.1)).Nodup)
    (hch : ∀ k n, alookup flat k = some n → n.children = [])
    (hid : ∀ k n, alookup flat k = some n → n.id = k) :
    GoodGraph (buildTree flat).nodes := by
  refine ⟨?_, ?_, ?_, ?_, ?_⟩
  · unfold nkeys
    rw [build_keys flat hch]
    exact hnd
  · intro k n hn
    rw [build_lookup flat hch k] at hn
    rcases hk : alookup flat k with _ | m
    · rw [hk] at hn; cases hn
    · rw [hk] at hn
      simp only [Option.map_some'] at hn
      have := hid k m hk
      have hne := Option.some.inj hn
      rw [← hne]
      simpa using this
  · intro u u' v h1 h2
    rw [build_nedge_iff flat hch] at h1 h2
    have e1 := h1.2.2
    have e2 := h2.2.2
    rw [e1] at e2
    exact Option.some.inj e2
  · intro u
    unfold childrenOfN
    rw [build_lookup flat hch u]
    rcases hu : alookup flat u with _ | nu
    · simp
    · simp only [Option.map_some', Option.getD_some]
      exact List.Nodup.filter _ hnd
  · intro u v h
    rw [build_nedge_iff flat hch] at h
    unfold nkeys
    rw [build_keys flat hch]
    exact h.2.1

theorem build_roots_no_inedge (flat : List (String × OrgNode))
    (hch : ∀ k n, alookup flat k = some n → n.children = []) :
    ∀ r ∈ (buildTree flat).roots, ∀ u, ¬ nedge (buildTree flat).nodes u r := by
  intro r hr u he
  rw [build_roots_eq flat hch] at hr
  rw [List.mem_filter] at hr
  obtain ⟨hrk, hrp⟩ := hr
  rw [build_nedge_iff flat hch] at he
  obtain ⟨huk, hvk, hpar⟩ := he
  unfold buildRootPred at hrp
  rw [hpar] at hrp
  have hnm : u ∉ flat.map (·.1) := by simpa using hrp
  exact hnm huk

theorem build_roots_nodup (flat : List (String × OrgNode))
    (hnd : (flat.map (·.1)).Nodup)
    (hch : ∀ k n, alookup flat k = some n → n.children = []) :
    (buildTree flat).roots.Nodup := by
  rw [build_roots_eq flat hch]
  exact List.Nodup.filter _ hnd

theorem build_roots_subset (flat : List (String × OrgNode))
    (hch : ∀ k n, alookup flat k = some n → n.children = []) :
    ∀ r ∈ (buildTree flat).roots, r ∈ flat.map (·.1) := by
  intro r hr
  rw [build_roots_eq flat hch, List.mem_filter] at hr
  exact hr.1

/-! ## Lemmas: disjointness of touched sets -/

theorem nodup_length_le {V K : List String} (hV : V.Nodup)
    (hsub : ∀ v ∈ V, v ∈ K) : V.length ≤ K.length := by
  have h1 : V.toFinset.card = V.length := List.toFinset_card_of_nodup hV
  have h2 : V.toFinset ⊆ K.toFinset := by
    intro x hx
    rw [List.mem_toFinset] at hx ⊢
    exact hsub x hx
  have h3 := Finset.card_le_card h2
  have h4 := List.toFinset_card_le K
  omega

theorem touched_disjoint (base : List (String × OrgNode))
    (up : ∀ u u' v, nedge base u v → nedge base u' v → u = u')
    (S1 S2 : Finset String) (c1 : String) (C2 : Finset String) (φ : String → ℕ)
    (pl1 : ∀ j ∈ S1, j ≠ c1 → ∃ u ∈ S1, nedge base u j)
    (pl2 : ∀ j ∈ S2, j ∉ C2 → ∃ u ∈ S2, nedge base u j ∧ φ j = φ u + 1)
    (hC2 : ∀ c ∈ C2, ∀ u, nedge base u c → u ∉ S1)
    (hc1 : ∀ u, nedge base u c1 → u ∉ S2)
    (hc1C2 : c1 ∉ C2) :
    ∀ j ∈ S2, j ∉ S1 := by
  suffices H : ∀ n j, φ j = n → j ∈ S2 → j ∉ S1 by
    intro j hj
    exact H (φ j) j rfl hj
  intro n
  induction n using Nat.strong_induction_on with
  | _ n IH =>
    intro j hφ hj2 hj1
    by_cases hjC2 : j ∈ C2
    · by_cases hjc1 : j = c1
      · subst hjc1
        exact hc1C2 hjC2
      · obtain ⟨u, hu1, hedge⟩ := pl1 j hj1 hjc1
        exact hC2 j hjC2 u hedge hu1
    · obtain ⟨u, hu2, hedge, hdepth⟩ := pl2 j hj2 hjC2
      by_cases hjc1 : j = c1
      · subst hjc1
        exact hc1 u hedge hu2
      · obtain ⟨u', hu1, hedge'⟩ := pl1 j hj1 hjc1
        have huu : u' = u := up u' u j hedge' hedge
        subst huu
        exact IH (φ u') (by omega) u' rfl hu2 hu1

/-! ## Lemmas: small state helpers for the metrics pass -/

theorem skel_lookup_children {base st : List (String × OrgNode)} (h : sameSkel base st)
    {c : String} {node : OrgNode} (hn : alookup st c = some node) :
    node.children = childrenOfN base c := by
  have hc := sameSkel_children h c
  rw [hn] at hc
  unfold childrenOfN
  rw [← hc]
  rfl

theorem skel_isSome {base st : List (String × OrgNode)} (h : sameSkel base st)
    (c : String) : (alookup st c).isSome ↔ c ∈ nkeys base := by
  rw [alookup_isSome_iff, sameSkel_keys h]
  rfl

theorem updF_eq_self {α : Type} (l : List (String × α)) (k : String) (f : α → α)
    (h : k ∉ l.map (·.1)) : updF l k f = l := by
  induction l with
  | nil => rfl
  | cons p l ih =>
    simp only [List.map_cons, List.mem_cons] at h
    push_neg at h
    obtain ⟨h1, h2⟩ := h
    unfold updF
    simp only [List.map]
    have : ¬ (p.1 = k) := fun he => h1 he.symm
    rw [if_neg this]
    have := ih h2
    unfold updF at this
    rw [this]

theorem sameSkel_updF_at {base l : List (String × OrgNode)} (h : sameSkel base l)
    (hnd : (l.map (·.1)).Nodup) (k : String) {f : OrgNode → OrgNode}
    (hf : ∀ a, alookup l k = some a → skelOf (f a) = skelOf a) :
    sameSkel base (updF l k f) := by
  have key : (updF l k f).map (fun p => (p.1, skelOf p.2)) =
      l.map (fun p => (p.1, skelOf p.2)) := by
    clear h
    induction l with
    | nil => rfl
    | cons p l ih =>
      obtain ⟨k0, v⟩ := p
      simp only [List.map_cons, List.nodup_cons] at hnd
      obtain ⟨hk0, hndl⟩ := hnd
      rw [updF_cons]
      by_cases hk : k0 = k
      · subst hk
        rw [if_pos rfl]
        have hv : alookup ((k0, v) :: l) k0 = some v := by simp [alookup]
        have hfv := hf v hv
        simp only [List.map_cons, hfv]
        have : updF l k0 f = l := updF_eq_self l k0 f hk0
        rw [this]
      · rw [if_neg hk]
        simp only [List.map_cons]
        congr 1
        apply ih
        · exact hndl
        · intro a ha
          apply hf
          have : ¬ (k = k0) := fun he => hk he.symm
          simp [alookup, this, ha]
  unfold sameSkel at h ⊢
  rw [key, h]

theorem FLout_nil (base : List (String × OrgNode)) (st : MState) (V : List String)
    (d : Nat) (hskel : sameSkel base st.nodes) : FLout base st st V [] d 0 := by
  refine ⟨∅, ?_, ?_, ?_, rfl, rfl, hskel, ?_, ?_, ?_, ?_, ?_, ?_, ?_, ?_⟩ <;> simp

/-! ## The master theorem of the metrics traversal -/

theorem cm_master (base : List (String × OrgNode)) (G : GoodGraph base) :
    ∀ (fuel : Nat) (cs : List String) (st : MState) (V : List String) (d : Nat),
      sameSkel base st.nodes →
      V.Nodup → (∀ v ∈ V, v ∈ nkeys base) →
      (∀ c ∈ cs, c ∈ nkeys base) → cs.Nodup →
      (∀ c ∈ cs, c ∉ V) →
      (nkeys base).length + 1 ≤ fuel + V.length →
      (∀ u v, nedge base u v → v ∈ V → u ∈ V) →
      (∀ c ∈ cs, ∀ u, nedge base u c → u ∈ V) →
      FLout base st
        (cmFold (fun s c => calculateMetrics fuel s V c d) st cs).1 V cs d
        (cmFold (fun s c => calculateMetrics fuel s V c d) st cs).2 := by
  intro fuel
  induction fuel with
  | zero =>
    intro cs st V d hskel hVnd hVsub hcssub hcsnd hcsV hfuel hHV hHcs
    cases cs with
    | nil => exact FLout_nil base st V d hskel
    | cons c cs =>
      exfalso
      have := nodup_length_le hVnd hVsub
      omega
  | succ n IHf =>
    intro cs
    induction cs with
    | nil =>
      intro st V d hskel hVnd hVsub hcssub hcsnd hcsV hfuel hHV hHcs
      exact FLout_nil base st V d hskel
    | cons c cs IHc =>
      intro st V d hskel hVnd hVsub hcssub hcsnd hcsV hfuel hHV hHcs
      have hcmem : c ∈ nkeys base := hcssub c (List.mem_cons_self c cs)
      have hcV : c ∉ V := hcsV c (List.mem_cons_self c cs)
      obtain ⟨node, hnode⟩ := Option.isSome_iff_exists.mp ((skel_isSome hskel c).mpr hcmem)
      have hchl : node.children = childrenOfN base c := skel_lookup_children hskel hnode
      have hndk : (st.nodes.map (·.1)).Nodup := by
        rw [sameSkel_keys hskel]
        exact G.nodup
      have hguard : ¬ (V.contains c = true) := by simpa using hcV
      set node1 := metricsNode node d with hnode1def
      set st1 := withNodes st (updF st.nodes c fun _ => node1) with hst1def
      set inner := cmFold (fun s c' => calculateMetrics n s (c :: V) c' (d + 1)) st1
        node.children with hinnerdef
      set st3 := withNodes inner.1 (updF inner.1.nodes c (setTdF inner.2)) with hst3def
      have hr : calculateMetrics (n + 1) st V c d = (st3, inner.2) := by
        rw [calculateMetrics]
        rw [if_neg hguard, hnode]
      have hskel1 : sameSkel base st1.nodes := by
        rw [hst1def]
        show sameSkel base (updF st.nodes c fun _ => node1)
        refine sameSkel_updF_at hskel hndk c ?_
        intro a ha
        rw [hnode] at ha
        have hae := Option.some.inj ha
        subst hae
        rfl
      have hchsub : ∀ x ∈ node.children, x ∈ nkeys base := by
        intro x hx
        rw [hchl] at hx
        exact G.closed c x hx
      have hchnd : node.children.Nodup := by
        rw [hchl]
        exact G.cn c
      have hchV : ∀ x ∈ node.children, x ∉ c :: V := by
        intro x hx hmem
        rw [hchl] at hx
        rcases List.mem_cons.mp hmem with rfl | hxV
        · exact hcV (hHcs x (List.mem_cons_self x cs) x hx)
        · exact hcV (hHV c x hx hxV)
      have hrec := IHf node.children st1 (c :: V) (d + 1) hskel1
        (List.nodup_cons.mpr ⟨hcV, hVnd⟩)
        (by
          intro v hv
          rcases List.mem_cons.mp hv with rfl | hvV
          · exact hcmem
          · exact hVsub v hvV)
        hchsub hchnd hchV
        (by
          simp only [List.length_cons]
          omega)
        (by
          intro u v he hv
          rcases List.mem_cons.mp hv with rfl | hvV
          · exact List.mem_cons_of_mem v (hHcs v (List.mem_cons_self v cs) u he)
          · exact List.mem_cons_of_mem c (hHV u v he hvV))
        (by
          intro x hx u he
          rw [hchl] at hx
          have huc : u = c := G.up u c x he hx
          subst huc
          exact List.mem_cons_self u V)
      rw [← hinnerdef] at hrec
      obtain ⟨T, hT1, hT2, hT3, hT4, hT5, hT6, hT7, hT8, hT9, hT10, hT11, hT12, hT13, hT14⟩ := hrec
      have hcT : c ∉ T := fun hc => hT3 c hc (List.mem_cons_self c V)
      have hlook1c : alookup st1.nodes c = some node1 := by
        rw [hst1def]
        show alookup (updF st.nodes c fun _ => node1) c = some node1
        rw [alookup_updF, if_pos rfl, hnode]
        rfl
      have hlook2c : alookup inner.1.nodes c = some node1 := by
        rw [hT7 c hcT, hlook1c]
      have hlook3c : alookup st3.nodes c = some (setTdF inner.2 node1) := by
        rw [hst3def]
        show alookup (updF inner.1.nodes c (setTdF inner.2)) c = _
        rw [alookup_updF, if_pos rfl, hlook2c]
        rfl
      have hlook3ne : ∀ j, j ≠ c → alookup st3.nodes j = alookup inner.1.nodes j := by
        intro j hj
        rw [hst3def]
        show alookup (updF inner.1.nodes c (setTdF inner.2)) j = _
        rw [alookup_updF, if_neg hj]
      have hdep3c : depthOf st3 c = d := by
        unfold depthOf
        rw [hlook3c]
        rfl
      have htd3c : tdOf st3 c = inner.2 := by
        unfold tdOf
        rw [hlook3c]
        rfl
      have hskel3 : sameSkel base st3.nodes := by
        rw [hst3def]
        show sameSkel base (updF inner.1.nodes c (setTdF inner.2))
        exact sameSkel_updF hT6 c (fun a => rfl)
      have herr1 : st1.errors = st.errors := by rw [hst1def]; rfl
      have hcyc1 : st1.cycleDetected = st.cycleDetected := by rw [hst1def]; rfl
      have herr3 : st3.errors = st.errors := by
        have h0 : st3.errors = inner.1.errors := by rw [hst3def]; rfl
        rw [h0, hT4, herr1]
      have hcyc3 : st3.cycleDetected = st.cycleDetected := by
        have h0 : st3.cycleDetected = inner.1.cycleDetected := by rw [hst3def]; rfl
        rw [h0, hT5, hcyc1]
      have hSC_sub : ∀ j ∈ insert c T, j ∈ nkeys base := by
        intro j hj
        rcases Finset.mem_insert.mp hj with hjc | hjT
        · subst hjc; exact hcmem
        · exact hT2 j hjT
      have hSC_V : ∀ j ∈ insert c T, j ∉ V := by
        intro j hj
        rcases Finset.mem_insert.mp hj with hjc | hjT
        · subst hjc; exact hcV
        · exact fun hjV => hT3 j hjT (List.mem_cons_of_mem c hjV)
      have hSC_frame : ∀ j, j ∉ insert c T →
          alookup st3.nodes j = alookup st.nodes j := by
        intro j hj
        rw [Finset.mem_insert] at hj
        push_neg at hj
        obtain ⟨hjc, hjT⟩ := hj
        rw [hlook3ne j hjc, hT7 j hjT, hst1def]
        show alookup (updF st.nodes c fun _ => node1) j = alookup st.nodes j
        rw [alookup_updF, if_neg hjc]
      have hSC_closure : ∀ j ∈ insert c T, ∀ x, nedge base j x → x ∈ insert c T := by
        intro j hj x hx
        rcases Finset.mem_insert.mp hj with hjc | hjT
        · subst hjc
          refine Finset.mem_insert_of_mem (hT1 x ?_)
          rw [hchl]
          exact hx
        · exact Finset.mem_insert_of_mem (hT8 j hjT x hx)
      have hSC_td : ∀ j ∈ insert c T,
          tdOf st3 j = ((childrenOfN base j).map (fun x => 1 + tdOf st3 x)).sum := by
        intro j hj
        rcases Finset.mem_insert.mp hj with hjc | hjT
        · have hjc2 := hjc.symm
          subst hjc2
          rw [htd3c, hT13, ← hchl]
          congr 1
          apply List.map_congr_left
          intro x hx
          have hxT : x ∈ T := hT1 x hx
          have hxc : x ≠ c := fun he => hcT (he ▸ hxT)
          unfold tdOf
          rw [hlook3ne x hxc]
        · have hjc : j ≠ c := fun he => hcT (he ▸ hjT)
          have h9 := hT9 j hjT
          unfold tdOf at h9 ⊢
          rw [hlook3ne j hjc, h9]
          congr 1
          apply List.map_congr_left
          intro x hx
          have hxT : x ∈ T := hT8 j hjT x hx
          have hxc : x ≠ c := fun he => hcT (he ▸ hxT)
          rw [hlook3ne x hxc]
      have hSC_plink : ∀ j ∈ insert c T, j ≠ c →
          ∃ u ∈ insert c T, nedge base u j ∧ depthOf st3 j = depthOf st3 u + 1 := by
        intro j hj hjc
        have hjT : j ∈ T := by
          rcases Finset.mem_insert.mp hj with rfl | h
          · exact absurd rfl hjc
          · exact h
        by_cases hjch : j ∈ node.children
        · refine ⟨c, Finset.mem_insert_self c T, ?_, ?_⟩
          · show j ∈ childrenOfN base c
            rw [← hchl]
            exact hjch
          · rw [hdep3c]
            have h11 := hT11 j hjch
            unfold depthOf at h11 ⊢
            rw [hlook3ne j hjc]
            rw [h11]
        · obtain ⟨u, huT, hedge, hdq⟩ := hT10 j hjT hjch
          have huc : u ≠ c := fun he => hcT (he ▸ huT)
          refine ⟨u, Finset.mem_insert_of_mem huT, hedge, ?_⟩
          unfold depthOf at hdq ⊢
          rw [hlook3ne j hjc, hlook3ne u huc]
          exact hdq
      have hSC_entry : ∀ u v, nedge base u v → v ∈ insert c T → v ≠ c →
          u ∈ insert c T := by
        intro u v he hv hvc
        have hvT : v ∈ T := by
          rcases Finset.mem_insert.mp hv with rfl | h
          · exact absurd rfl hvc
          · exact h
        by_cases hvch : v ∈ node.children
        · have hcv : v ∈ childrenOfN base c := by
            rw [← hchl]
            exact hvch
          have huc : u = c := G.up u c v he hcv
          rw [huc]
          exact Finset.mem_insert_self c T
        · exact Finset.mem_insert_of_mem (hT12 u v he hvT hvch)
      have hSC_card : (insert c T).card = inner.2 + 1 := by
        rw [Finset.card_insert_of_not_mem hcT, hT14]
      set rest := cmFold (fun s c' => calculateMetrics (n + 1) s V c' d) st3 cs
        with hrestdef
      have hrest := IHc st3 V d hskel3 hVnd hVsub
        (fun x hx => hcssub x (List.mem_cons_of_mem c hx))
        (List.nodup_cons.mp hcsnd).2
        (fun x hx => hcsV x (List.mem_cons_of_mem c hx))
        hfuel hHV
        (fun x hx => hHcs x (List.mem_cons_of_mem c hx))
      rw [← hrestdef] at hrest
      obtain ⟨T2, hU1, hU2, hU3, hU4, hU5, hU6, hU7, hU8, hU9, hU10, hU11, hU12, hU13, hU14⟩ := hrest
      have hdisj : ∀ j ∈ T2, j ∉ insert c T := by
        apply touched_disjoint base G.up (insert c T) T2 c cs.toFinset
          (fun j => depthOf rest.1 j)
        · intro j hj hjc
          obtain ⟨u, hu, he, _⟩ := hSC_plink j hj hjc
          exact ⟨u, hu, he⟩
        · intro j hj hjC
          have hjcs : j ∉ cs := fun h => hjC (List.mem_toFinset.mpr h)
          exact hU10 j hj hjcs
        · intro x hx u he hu
          have hxcs : x ∈ cs := List.mem_toFinset.mp hx
          have huV : u ∈ V := hHcs x (List.mem_cons_of_mem c hxcs) u he
          exact hSC_V u hu huV
        · intro u he hu2
          have huV : u ∈ V := hHcs c (List.mem_cons_self c cs) u he
          exact hU3 u hu2 huV
        · intro hcc
          exact (List.nodup_cons.mp hcsnd).1 (List.mem_toFinset.mp hcc)
      have hpres : ∀ j ∈ insert c T, alookup rest.1.nodes j = alookup st3.nodes j :=
        fun j hj => hU7 j (fun hj2 => hdisj j hj2 hj)
      have hfold : cmFold (fun s c' => calculateMetrics (n + 1) s V c' d) st (c :: cs)
          = (rest.1, (1 + inner.2) + rest.2) := by
        show (let r := calculateMetrics (n + 1) st V c d
              let rr := cmFold (fun s c' => calculateMetrics (n + 1) s V c' d) r.1 cs
              (rr.1, (1 + r.2) + rr.2)) = (rest.1, (1 + inner.2) + rest.2)
        rw [hr]
      rw [hfold]
      show FLout base st rest.1 V (c :: cs) d ((1 + inner.2) + rest.2)
      refine ⟨insert c T ∪ T2, ?_, ?_, ?_, ?_, ?_, hU6, ?_, ?_, ?_, ?_, ?_, ?_, ?_, ?_⟩
      · intro x hx
        rcases List.mem_cons.mp hx with hxc | hxcs
        · subst hxc
          exact Finset.mem_union_left _ (Finset.mem_insert_self x T)
        · exact Finset.mem_union_right _ (hU1 x hxcs)
      · intro j hj
        rcases Finset.mem_union.mp hj with h | h
        · exact hSC_sub j h
        · exact hU2 j h
      · intro j hj
        rcases Finset.mem_union.mp hj with h | h
        · exact hSC_V j h
        · exact hU3 j h
      · rw [hU4, herr3]
      · rw [hU5, hcyc3]
      · intro j hj
        rw [Finset.mem_union] at hj
        push_neg at hj
        obtain ⟨hjSc, hjT2⟩ := hj
        rw [hU7 j hjT2, hSC_frame j hjSc]
      · intro j hj x hx
        rcases Finset.mem_union.mp hj with h | h
        · exact Finset.mem_union_left _ (hSC_closure j h x hx)
        · exact Finset.mem_union_right _ (hU8 j h x hx)
      · intro j hj
        rcases Finset.mem_union.mp hj with h | h
        · have htd := hSC_td j h
          unfold tdOf at htd ⊢
          rw [hpres j h, htd]
          congr 1
          apply List.map_congr_left
          intro x hx
          have hxSc : x ∈ insert c T := hSC_closure j h x hx
          rw [hpres x hxSc]
        · exact hU9 j h
      · intro j hj hjcs
        have hjc : j ≠ c := fun he => hjcs (he ▸ List.mem_cons_self c cs)
        have hjcs' : j ∉ cs := fun h => hjcs (List.mem_cons_of_mem c h)
        rcases Finset.mem_union.mp hj with h | h
        · obtain ⟨u, hu, he, hdq⟩ := hSC_plink j h hjc
          refine ⟨u, Finset.mem_union_left _ hu, he, ?_⟩
          unfold depthOf at hdq ⊢
          rw [hpres j h, hpres u hu]
          exact hdq
        · obtain ⟨u, hu, he, hdq⟩ := hU10 j h hjcs'
          exact ⟨u, Finset.mem_union_right _ hu, he, hdq⟩
      · intro x hx
        rcases List.mem_cons.mp hx with hxc | hxcs
        · subst hxc
          unfold depthOf
          rw [hpres x (Finset.mem_insert_self x T)]
          exact hdep3c
        · exact hU11 x hxcs
      · intro u v he hv hvcs
        have hvc : v ≠ c := fun heq => hvcs (heq ▸ List.mem_cons_self c cs)
        have hvcs' : v ∉ cs := fun h => hvcs (List.mem_cons_of_mem c h)
        rcases Finset.mem_union.mp hv with h | h
        · exact Finset.mem_union_left _ (hSC_entry u v he h hvc)
        · exact Finset.mem_union_right _ (hU12 u v he h hvcs')
      · rw [List.map_cons, List.sum_cons]
        have htdc : tdOf rest.1 c = inner.2 := by
          unfold tdOf at htd3c ⊢
          rw [hpres c (Finset.mem_insert_self c T)]
          exact htd3c
        rw [htdc, hU13]
      · have hdisj' : Disjoint (insert c T) T2 := Finset.disjoint_right.mpr hdisj
        rw [Finset.card_union_of_disjoint hdisj', hSC_card, hU14]
        omega

/-! ## Lemmas: the `processData` pipeline stages -/

theorem processData_nil :
    processData [] =
      { root := none, secondaryRoots := [], flatNodes := [],
        stats := emptyStats, errors := ["File is empty"] } := rfl

theorem processData_eq_invalid (firstRow : RawRow) (rest : List RawRow)
    (hv : ¬ ((validationErrors (rowKeys firstRow)).isEmpty = true)) :
    processData (firstRow :: rest) =
      { root := none, secondaryRoots := [], flatNodes := [],
        stats := emptyStats, errors := validationErrors (rowKeys firstRow) } := by
  simp only [processData]
  rw [if_neg hv]

theorem processData_eq_valid (firstRow : RawRow) (rest : List RawRow)
    (hv : (validationErrors (rowKeys firstRow)).isEmpty = true) :
    processData (firstRow :: rest) =
      { root := (pdRootsSorted (firstRow :: rest)).head?
        secondaryRoots := (pdRootsSorted (firstRow :: rest)).tail
        flatNodes := (pdStF (firstRow :: rest)).nodes
        stats :=
          { totalRows := (firstRow :: rest).length
            validRows := (pdFlat (firstRow :: rest)).length
            orphanCount := (pdBuild (firstRow :: rest)).orphanIds.length +
              (((pdRootsSorted (firstRow :: rest)).tail).map
                (fun r => 1 + r.total_descendants)).sum
            cycleCount := if (pdStF (firstRow :: rest)).cycleDetected then 1 else 0
            roots := (pdRootsSorted (firstRow :: rest)).map (·.id) }
        errors := (pdStF (firstRow :: rest)).errors } := by
  simp only [processData]
  rw [if_pos hv]
  rfl

theorem pdFlat_nodup (rawData : List RawRow) :
    ((pdFlat rawData).map (·.1)).Nodup := by
  unfold pdFlat
  rw [buildFlatNodes_keys]
  exact buildRowMap_nodup rawData

theorem pdFlat_children (rawData : List RawRow) :
    ∀ k n, alookup (pdFlat rawData) k = some n → n.children = [] := by
  intro k n h
  unfold pdFlat at h
  rw [buildFlatNodes_lookup] at h
  rcases hk : alookup (buildRowMap rawData) k with _ | row
  · rw [hk] at h; cases h
  · rw [hk] at h
    have := Option.some.inj h
    rw [← this]
    rfl

theorem pdFlat_id (rawData : List RawRow) :
    ∀ k n, alookup (pdFlat rawData) k = some n → n.id = k := by
  intro k n h
  unfold pdFlat at h
  rw [buildFlatNodes_lookup] at h
  rcases hk : alookup (buildRowMap rawData) k with _ | row
  · rw [hk] at h; cases h
  · rw [hk] at h
    have := Option.some.inj h
    rw [← this]
    rfl

theorem pdGood (rawData : List RawRow) : GoodGraph (pdBuild rawData).nodes :=
  build_goodGraph (pdFlat rawData) (pdFlat_nodup rawData)
    (pdFlat_children rawData) (pdFlat_id rawData)

theorem pd_nkeys_len (rawData : List RawRow) :
    (nkeys (pdBuild rawData).nodes).length = (pdFlat rawData).length := by
  unfold nkeys pdBuild
  rw [build_keys (pdFlat rawData) (pdFlat_children rawData)]
  simp

theorem pd_fold (rawData : List RawRow) :
    FLout (pdBuild rawData).nodes
      { nodes := (pdBuild rawData).nodes, cycleDetected := false, errors := [] }
      (pdStF rawData) [] (pdBuild rawData).roots 0
      (cmFold (fun s r => calculateMetrics (pdFuel rawData) s [] r 0)
        { nodes := (pdBuild rawData).nodes, cycleDetected := false, errors := [] }
        (pdBuild rawData).roots).2 := by
  have hK : (nkeys (pdBuild rawData).nodes).length + 1 ≤ pdFuel rawData + ([] : List String).length := by
    rw [pd_nkeys_len]
    unfold pdFuel
    simp
  have hroots_sub : ∀ r ∈ (pdBuild rawData).roots, r ∈ nkeys (pdBuild rawData).nodes := by
    intro r hr
    unfold nkeys pdBuild
    rw [build_keys (pdFlat rawData) (pdFlat_children rawData)]
    exact build_roots_subset (pdFlat rawData) (pdFlat_children rawData) r hr
  have := cm_master (pdBuild rawData).nodes (pdGood rawData) (pdFuel rawData)
    (pdBuild rawData).roots
    { nodes := (pdBuild rawData).nodes, cycleDetected := false, errors := [] }
    [] 0
    (sameSkel_refl _)
    (by simp)
    (by simp)
    hroots_sub
    (build_roots_nodup (pdFlat rawData) (pdFlat_nodup rawData) (pdFlat_children rawData))
    (by simp)
    hK
    (by simp)
    (by
      intro r hr u he
      exact absurd he (build_roots_no_inedge (pdFlat rawData) (pdFlat_children rawData) r hr u))
  exact this

/-! ## Lemmas: root sorting and selection -/

theorem insertDesc_perm (a : OrgNode) (l : List OrgNode) :
    (insertDesc a l).Perm (a :: l) := by
  induction l with
  | nil => exact List.Perm.refl _
  | cons b l ih =>
    unfold insertDesc
    by_cases h : a.total_descendants < b.total_descendants
    · rw [if_pos h]
      exact (ih.cons b).trans (List.Perm.swap a b l)
    · rw [if_neg h]

theorem sortRootsDesc_perm (l : List OrgNode) :
    (sortRootsDesc l).Perm l := by
  induction l with
  | nil => exact List.Perm.refl _
  | cons a l ih =>
    unfold sortRootsDesc
    exact (insertDesc_perm a (sortRootsDesc l)).trans (ih.cons a)

theorem mem_of_head?_or_tail {α : Type} (l : List α) (r : α)
    (h : l.head? = some r ∨ r ∈ l.tail) : r ∈ l := by
  cases l with
  | nil => rcases h with h | h <;> simp at h
  | cons a l =>
    rcases h with h | h
    · simp at h
      rw [← h]
      exact List.mem_cons_self a l
    · exact List.mem_cons_of_mem a h

theorem filterMap_lookup_mem {m : List (String × OrgNode)} {roots : List String}
    {r : OrgNode} (h : r ∈ roots.filterMap (alookup m)) :
    ∃ rid ∈ roots, alookup m rid = some r := by
  rcases List.mem_filterMap.mp h with ⟨rid, hrid, hl⟩
  exact ⟨rid, hrid, hl⟩

theorem filterMap_lookup_map_id {m : List (String × OrgNode)} :
    ∀ {roots : List String},
      (∀ r ∈ roots, ∃ n, alookup m r = some n ∧ n.id = r) →
      (roots.filterMap (alookup m)).map (·.id) = roots := by
  intro roots
  induction roots with
  | nil => intro _; rfl
  | cons r roots ih =>
    intro h
    obtain ⟨n, hn, hid⟩ := h r (List.mem_cons_self r roots)
    simp only [List.filterMap_cons, hn, List.map_cons]
    rw [hid, ih (fun x hx => h x (List.mem_cons_of_mem r hx))]

/-! ## Lemmas: global facts about the finished metrics state -/

theorem pd_skel (rawData : List RawRow) :
    sameSkel (pdBuild rawData).nodes (pdStF rawData).nodes := by
  obtain ⟨S, h1, h2, h3, h4, h5, h6, h7, h8, h9, h10, h11, h12, h13, h14⟩ := pd_fold rawData
  exact h6

theorem pd_errors (rawData : List RawRow) : (pdStF rawData).errors = [] := by
  obtain ⟨S, h1, h2, h3, h4, h5, h6, h7, h8, h9, h10, h11, h12, h13, h14⟩ := pd_fold rawData
  exact h4

theorem pd_cycle (rawData : List RawRow) : (pdStF rawData).cycleDetected = false := by
  obtain ⟨S, h1, h2, h3, h4, h5, h6, h7, h8, h9, h10, h11, h12, h13, h14⟩ := pd_fold rawData
  exact h5

theorem pd_roots_keys (rawData : List RawRow) :
    ∀ r ∈ (pdBuild rawData).roots, r ∈ nkeys (pdBuild rawData).nodes := by
  intro r hr
  unfold nkeys pdBuild
  rw [build_keys (pdFlat rawData) (pdFlat_children rawData)]
  exact build_roots_subset (pdFlat rawData) (pdFlat_children rawData) r hr

theorem pd_roots_lookup (rawData : List RawRow) :
    ∀ r ∈ (pdBuild rawData).roots,
      ∃ n, alookup (pdStF rawData).nodes r = some n ∧ n.id = r := by
  intro r hr
  have hmem := pd_roots_keys rawData r hr
  obtain ⟨n, hn⟩ := Option.isSome_iff_exists.mp ((skel_isSome (pd_skel rawData) r).mpr hmem)
  refine ⟨n, hn, ?_⟩
  have hid := sameSkel_id (pd_skel rawData) r
  rw [hn] at hid
  rcases hb : alookup (pdBuild rawData).nodes r with _ | m
  · rw [hb] at hid; cases hid
  · rw [hb] at hid
    have hne : n.id = m.id := Option.some.inj hid
    rw [hne]
    exact (pdGood rawData).idEq r m hb

theorem pd_rootsSorted_mem (rawData : List RawRow) (r : OrgNode)
    (hr : r ∈ pdRootsSorted rawData) :
    ∃ rid ∈ (pdBuild rawData).roots,
      alookup (pdStF rawData).nodes rid = some r ∧ r.id = rid := by
  unfold pdRootsSorted at hr
  have hmem := (sortRootsDesc_perm _).mem_iff.mp hr
  obtain ⟨rid, hrid, hl⟩ := filterMap_lookup_mem hmem
  refine ⟨rid, hrid, hl, ?_⟩
  obtain ⟨n, hn, hid⟩ := pd_roots_lookup rawData rid hrid
  rw [hn] at hl
  have hne := Option.some.inj hl
  rw [← hne]
  exact hid

theorem pd_statsroots_iff (rawData : List RawRow) (x : String) :
    x ∈ (pdRootsSorted rawData).map (·.id) ↔ x ∈ (pdBuild rawData).roots := by
  unfold pdRootsSorted
  have hperm := (sortRootsDesc_perm
    ((pdBuild rawData).roots.filterMap (alookup (pdStF rawData).nodes))).map (·.id)
  rw [hperm.mem_iff, filterMap_lookup_map_id (pd_roots_lookup rawData)]

theorem reach_sub_touched {base m : List (String × OrgNode)} (hskel : sameSkel base m)
    {S : Finset String} (hclosed : ∀ j ∈ S, ∀ x, nedge base j x → x ∈ S)
    {rid : String} (hrid : rid ∈ S) :
    ∀ j, ReachableFrom m rid j → j ∈ S := by
  intro j hj
  induction hj with
  | refl => exact hrid
  | step n hr hl hc ih =>
    have hch := skel_lookup_children hskel hl
    apply hclosed _ ih
    show _ ∈ childrenOfN base _
    rw [← hch]
    exact hc

theorem pd_td_inv (rawData : List RawRow) :
    ∀ rid ∈ (pdBuild rawData).roots, ∀ j,
      ReachableFrom (pdStF rawData).nodes rid j →
      tdInv (pdStF rawData).nodes j := by
  obtain ⟨S, h1, h2, h3, h4, h5, h6, h7, h8, h9, h10, h11, h12, h13, h14⟩ := pd_fold rawData
  intro rid hrid j hj
  have hjS : j ∈ S := reach_sub_touched h6 h8 (h1 rid hrid) j hj
  have hjK : j ∈ nkeys (pdBuild rawData).nodes := h2 j hjS
  obtain ⟨n, hn⟩ := Option.isSome_iff_exists.mp ((skel_isSome h6 j).mpr hjK)
  refine ⟨n, hn, ?_⟩
  have h9j := h9 j hjS
  unfold tdOf at h9j
  rw [hn] at h9j
  have hch := skel_lookup_children h6 hn
  rw [hch]
  simpa using h9j

/-! ## Lemmas: sums over root candidates, validation, orphans -/

theorem head_toList_append_tail {α : Type} (l : List α) :
    l.head?.toList ++ l.tail = l := by
  cases l <;> rfl

theorem filterMap_lookup_map_td {m : List (String × OrgNode)} :
    ∀ {roots : List String},
      (∀ r ∈ roots, (alookup m r).isSome) →
      (roots.filterMap (alookup m)).map (fun n => 1 + n.total_descendants) =
        roots.map (fun rid => 1 + ((alookup m rid).map (·.total_descendants)).getD 0) := by
  intro roots
  induction roots with
  | nil => intro _; rfl
  | cons r roots ih =>
    intro h
    obtain ⟨n, hn⟩ := Option.isSome_iff_exists.mp (h r (List.mem_cons_self r roots))
    simp only [List.filterMap_cons, hn, List.map_cons, Option.map_some', Option.getD_some]
    rw [ih (fun x hx => h x (List.mem_cons_of_mem r hx))]

theorem validationErrors_ne_iff (keys : List String) :
    validationErrors keys ≠ [] ↔
      ((∃ col ∈ REQUIRED_COLS, col ∉ keys) ∧
       "reports_to_id" ∉ keys ∧ "Reports To" ∉ keys) := by
  unfold validationErrors
  by_cases hc : (!(REQUIRED_COLS.filter (fun c => !(keys.contains c))).isEmpty &&
      !(keys.contains "reports_to_id") && !(keys.contains "Reports To")) = true
  · rw [if_pos hc]
    simp only [Bool.and_eq_true, Bool.not_eq_true'] at hc
    obtain ⟨⟨hm, hrt⟩, hRT⟩ := hc
    constructor
    · intro _
      refine ⟨?_, ?_, ?_⟩
      · have hne : (REQUIRED_COLS.filter (fun c => !(keys.contains c))) ≠ [] := by
          intro he
          rw [he] at hm
          simp at hm
        obtain ⟨col, hcol⟩ := List.exists_mem_of_ne_nil _ hne
        rw [List.mem_filter] at hcol
        exact ⟨col, hcol.1, by simpa using hcol.2⟩
      · simpa using hrt
      · simpa using hRT
    · intro _
      simp
  · rw [if_neg hc]
    constructor
    · intro h
      exact absurd rfl h
    · rintro ⟨⟨col, hcolRC, hcolk⟩, hrt, hRT⟩
      exfalso
      apply hc
      have h1 : (REQUIRED_COLS.filter (fun c => !(keys.contains c))).isEmpty = false := by
        have hmem : col ∈ REQUIRED_COLS.filter (fun c => !(keys.contains c)) := by
          rw [List.mem_filter]
          exact ⟨hcolRC, by simpa using hcolk⟩
        rcases hfe : REQUIRED_COLS.filter (fun c => !(keys.contains c)) with _ | ⟨a, l⟩
        · rw [hfe] at hmem
          simp at hmem
        · rfl
      have h2 : keys.contains "reports_to_id" = false := by simpa using hrt
      have h3 : keys.contains "Reports To" = false := by simpa using hRT
      rw [h1, h2, h3]
      rfl

theorem pd_parentOf (rawData : List RawRow) (i : String) :
    (alookup (pdStF rawData).nodes i).bind (·.parentId) =
      parentOfF (pdFlat rawData) i := by
  have hp := sameSkel_parentId (pd_skel rawData) i
  have hb := build_lookup (pdFlat rawData) (pdFlat_children rawData) i
  rcases hs : alookup (pdStF rawData).nodes i with _ | n
  · rw [hs] at hp
    rcases h0 : alookup (pdBuild rawData).nodes i with _ | m
    · unfold pdBuild at h0
      rw [h0] at hb
      unfold parentOfF
      rcases hf : alookup (pdFlat rawData) i with _ | q
      · rfl
      · rw [hf] at hb
        cases hb
    · rw [h0] at hp
      cases hp
  · rw [hs] at hp
    rcases h0 : alookup (pdBuild rawData).nodes i with _ | m
    · rw [h0] at hp
      cases hp
    · rw [h0] at hp
      have hioi : n.parentId = m.parentId := Option.some.inj hp
      unfold pdBuild at h0
      rw [h0] at hb
      rcases hf : alookup (pdFlat rawData) i with _ | q
      · rw [hf] at hb
        cases hb
      · rw [hf] at hb
        have hmq := Option.some.inj hb
        unfold parentOfF
        rw [hf]
        simp only [Option.some_bind]
        rw [hioi, hmq]

theorem pd_outOrphans (rawData : List RawRow) :
    outOrphans (pdStF rawData).nodes = (pdBuild rawData).orphanIds := by
  have hkeys : (pdStF rawData).nodes.map (·.1) = (pdFlat rawData).map (·.1) := by
    have h1 := sameSkel_keys (pd_skel rawData)
    rw [h1]
    show nkeys (pdBuild rawData).nodes = _
    unfold nkeys pdBuild
    exact build_keys (pdFlat rawData) (pdFlat_children rawData)
  unfold outOrphans
  rw [hkeys]
  have horph := build_orphans_eq (pdFlat rawData) (pdFlat_children rawData)
  unfold pdBuild
  rw [horph]
  apply List.filter_congr
  intro i _
  rw [pd_parentOf rawData i]
  unfold buildOrphanPred
  rfl

theorem pd_orphans_in_roots (rawData : List RawRow) :
    ∀ i ∈ (pdBuild rawData).orphanIds, i ∈ (pdBuild rawData).roots := by
  intro i hi
  have horph := build_orphans_eq (pdFlat rawData) (pdFlat_children rawData)
  have hroots := build_roots_eq (pdFlat rawData) (pdFlat_children rawData)
  unfold pdBuild at hi ⊢
  rw [horph] at hi
  rw [hroots]
  rw [List.mem_filter] at hi ⊢
  refine ⟨hi.1, ?_⟩
  have h2 := hi.2
  unfold buildOrphanPred at h2
  unfold buildRootPred
  rcases hp : parentOfF (pdFlat rawData) i with _ | p
  · rfl
  · rw [hp] at h2
    exact h2

/-! ## Claim theorems: data pipeline (C1 - C6) -/

/-- C1: after `processData` completes on any input, every node reachable from
the primary root or from any secondary root satisfies
`total_descendants = Σ over its children of (1 + child.total_descendants)`. -/
theorem spec_C1 (rawData : List RawRow) (r : OrgNode)
    (hr : (processData rawData).root = some r ∨ r ∈ (processData rawData).secondaryRoots)
    (j : String)
    (hj : ReachableFrom (processData rawData).flatNodes r.id j) :
    tdInv (processData rawData).flatNodes j := by
  cases rawData with
  | nil =>
    rw [processData_nil] at hr
    rcases hr with h | h <;> simp at h
  | cons firstRow rest =>
    by_cases hv : (validationErrors (rowKeys firstRow)).isEmpty = true
    · rw [processData_eq_valid firstRow rest hv] at hr hj ⊢
      have hrmem : r ∈ pdRootsSorted (firstRow :: rest) :=
        mem_of_head?_or_tail (pdRootsSorted (firstRow :: rest)) r hr
      obtain ⟨rid, hrid, hlook, hid⟩ := pd_rootsSorted_mem (firstRow :: rest) r hrmem
      rw [hid] at hj
      exact pd_td_inv (firstRow :: rest) rid hrid j hj
    · rw [processData_eq_invalid firstRow rest hv] at hr
      rcases hr with h | h <;> simp at h

theorem spec_C1_witness :
    ((processData pairRows).root = some pairRoot ∨
      pairRoot ∈ (processData pairRows).secondaryRoots) ∧
    ReachableFrom (processData pairRows).flatNodes pairRoot.id "B" ∧
    tdInv (processData pairRows).flatNodes "B" := by
  have h1 : (processData pairRows).root = some pairRoot := by decide
  have e0 : pairRoot.id = "A" := by decide
  have e1 : alookup (processData pairRows).flatNodes "A" = some pairNodeA := by decide
  have e2 : "B" ∈ pairNodeA.children := by decide
  have h2 : ReachableFrom (processData pairRows).flatNodes pairRoot.id "B" := by
    rw [e0]
    exact ReachableFrom.step pairNodeA (ReachableFrom.refl "A") e1 e2
  exact ⟨Or.inl h1, h2, spec_C1 pairRows pairRoot (Or.inl h1) "B" h2⟩

/-- C2 (evaluation at the claimed input): on the three-row manager loop
A→B→C→A the construction does terminate, but — contrary to the claim — the
cycle flag stays 0, the errors list stays empty (no warning is recorded), and
no root is produced, while all three rows are still counted valid.  The
cycle guard of the metrics pass never fires because the loop's nodes are
root candidates of no tree. -/
theorem spec_C2 :
    (processData cycleRows).stats.cycleCount = 0 ∧
    (processData cycleRows).errors = [] ∧
    (processData cycleRows).root = none ∧
    (processData cycleRows).secondaryRoots = [] ∧
    (processData cycleRows).stats.validRows = 3 := by decide

/-- C3 counterexample: the cycle input is accepted (no errors) with
`validRows = 3`, yet the sum of `(1 + total_descendants)` over all root
candidates is 0: the claimed equality needs every committed row to be
reachable from a root candidate, which processData does not guarantee. -/
theorem spec_C3_counterexample :
    (processData cycleRows).errors = [] ∧
    sumRootCandidates (processData cycleRows) = 0 ∧
    (processData cycleRows).stats.validRows = 3 ∧
    sumRootCandidates (processData cycleRows) ≠ (processData cycleRows).stats.validRows := by
  decide

/-- C3 (amended): for accepted inputs all of whose committed rows are
reachable from some root candidate, the sum of `(1 + total_descendants)`
over the root candidates equals `stats.validRows`, which is the number of
committed rows; the committed keys are exactly the deduplicated non-blank
identifiers of the input rows. -/
theorem spec_C3 (rawData : List RawRow)
    (hacc : (processData rawData).errors = [])
    (hreach : ∀ k ∈ (processData rawData).flatNodes.map (·.1),
      ∃ rid ∈ (processData rawData).stats.roots,
        ReachableFrom (processData rawData).flatNodes rid k) :
    sumRootCandidates (processData rawData) = (processData rawData).stats.validRows ∧
    (processData rawData).stats.validRows = (processData rawData).flatNodes.length ∧
    ((processData rawData).flatNodes.map (·.1)).Nodup ∧
    (∀ k, k ∈ (processData rawData).flatNodes.map (·.1) ↔
      ∃ row ∈ rawData, idOf row = some k) := by
  cases rawData with
  | nil =>
    rw [processData_nil] at hacc
    simp at hacc
  | cons firstRow rest =>
    by_cases hv : (validationErrors (rowKeys firstRow)).isEmpty = true
    · rw [processData_eq_valid firstRow rest hv] at hacc hreach ⊢
      obtain ⟨S, h1, h2, h3, h4, h5, h6, h7, h8, h9, h10, h11, h12, h13, h14⟩ :=
        pd_fold (firstRow :: rest)
      have hkeys : (pdStF (firstRow :: rest)).nodes.map (·.1) =
          (pdFlat (firstRow :: rest)).map (·.1) := by
        rw [sameSkel_keys (pd_skel (firstRow :: rest))]
        show nkeys (pdBuild (firstRow :: rest)).nodes = _
        unfold nkeys pdBuild
        exact build_keys (pdFlat (firstRow :: rest)) (pdFlat_children (firstRow :: rest))
      have hnodup : ((pdStF (firstRow :: rest)).nodes.map (·.1)).Nodup := by
        rw [hkeys]
        exact pdFlat_nodup (firstRow :: rest)
      have hmemchar : ∀ k, k ∈ (pdStF (firstRow :: rest)).nodes.map (·.1) ↔
          ∃ row ∈ (firstRow :: rest), idOf row = some k := by
        intro k
        rw [hkeys]
        unfold pdFlat
        rw [buildFlatNodes_keys]
        exact buildRowMap_mem (firstRow :: rest) k
      have hlen : (pdFlat (firstRow :: rest)).length =
          (pdStF (firstRow :: rest)).nodes.length := by
        have hc := congrArg List.length hkeys
        simpa using hc.symm
      have hisSome : ∀ rr ∈ (pdBuild (firstRow :: rest)).roots,
          (alookup (pdStF (firstRow :: rest)).nodes rr).isSome := by
        intro rr hrr
        obtain ⟨n, hn, _⟩ := pd_roots_lookup (firstRow :: rest) rr hrr
        rw [hn]
        rfl
      have hSub : ∀ k ∈ nkeys (pdBuild (firstRow :: rest)).nodes, k ∈ S := by
        intro k hk
        have hk2 : k ∈ (pdStF (firstRow :: rest)).nodes.map (·.1) := by
          rw [sameSkel_keys (pd_skel (firstRow :: rest))]
          exact hk
        obtain ⟨rid, hrid, hrch⟩ := hreach k hk2
        have hrid2 : rid ∈ (pdBuild (firstRow :: rest)).roots :=
          (pd_statsroots_iff (firstRow :: rest) rid).mp hrid
        exact reach_sub_touched h6 h8 (h1 rid hrid2) k hrch
      have hSeq : S = (nkeys (pdBuild (firstRow :: rest)).nodes).toFinset := by
        apply Finset.Subset.antisymm
        · intro x hx
          exact List.mem_toFinset.mpr (h2 x hx)
        · intro x hx
          exact hSub x (List.mem_toFinset.mp hx)
      have hcard : S.card = (pdFlat (firstRow :: rest)).length := by
        rw [hSeq, List.toFinset_card_of_nodup (pdGood (firstRow :: rest)).nodup,
          pd_nkeys_len]
      simp only [tdOf] at h13
      refine ⟨?_, hlen, hnodup, hmemchar⟩
      show sumRootCandidates _ = (pdFlat (firstRow :: rest)).length
      unfold sumRootCandidates
      show (((pdRootsSorted (firstRow :: rest)).head?.toList ++
          (pdRootsSorted (firstRow :: rest)).tail).map
          (fun n => 1 + n.total_descendants)).sum = _
      rw [head_toList_append_tail]
      unfold pdRootsSorted
      rw [((sortRootsDesc_perm
        ((pdBuild (firstRow :: rest)).roots.filterMap
          (alookup (pdStF (firstRow :: rest)).nodes))).map
        (fun n => 1 + n.total_descendants)).sum_eq]
      rw [filterMap_lookup_map_td hisSome]
      rw [← h13, ← h14]
      exact hcard
    · rw [processData_eq_invalid firstRow rest hv] at hacc
      have hacc2 : validationErrors (rowKeys firstRow) = [] := hacc
      exfalso
      apply hv
      rw [hacc2]
      rfl

theorem spec_C3_witness :
    (processData singleRow).errors = [] ∧
    sumRootCandidates (processData singleRow) = (processData singleRow).stats.validRows ∧
    (processData singleRow).stats.validRows = 1 := by
  have hacc : (processData singleRow).errors = [] := by decide
  have hreach : ∀ k ∈ (processData singleRow).flatNodes.map (·.1),
      ∃ rid ∈ (processData singleRow).stats.roots,
        ReachableFrom (processData singleRow).flatNodes rid k := by
    intro k hk
    have he : (processData singleRow).flatNodes.map (·.1) = ["A"] := by decide
    rw [he] at hk
    have hk2 : k = "A" := by simpa using hk
    subst hk2
    exact ⟨"A", by decide, ReachableFrom.refl "A"⟩
  exact ⟨hacc, (spec_C3 singleRow hacc hreach).1, by decide⟩

/-- C4 counterexample: on `orphanRows` the orphan `"A"` (manager `"X"`
unknown) heads the LARGEST tree and is therefore selected as the PRIMARY
root, not the root of a secondary tree; the only secondary root is the
non-orphan `"D"`.  The claim's assertion that an orphan becomes the root of
a *secondary* tree is refuted. -/
theorem spec_C4_counterexample :
    outOrphans (processData orphanRows).flatNodes = ["A"] ∧
    ((processData orphanRows).root.map (·.id)) = some "A" ∧
    ((processData orphanRows).secondaryRoots.map (·.id)) = ["D"] ∧
    "A" ∉ ((processData orphanRows).secondaryRoots.map (·.id)) ∧
    (processData orphanRows).stats.orphanCount = 2 := by decide

/-- C4 (amended): every orphan identifier (non-blank stored manager id
absent from the arena) is kept and becomes a root candidate (primary or
secondary), and `stats.orphanCount` equals the number of orphan identifiers
plus the total node count `Σ (1 + total_descendants)` across the secondary
trees. -/
theorem spec_C4 (rawData : List RawRow) :
    (∀ i ∈ outOrphans (processData rawData).flatNodes,
      i ∈ (processData rawData).stats.roots) ∧
    (processData rawData).stats.orphanCount =
      (outOrphans (processData rawData).flatNodes).length +
      (((processData rawData).secondaryRoots).map
        (fun r => 1 + r.total_descendants)).sum := by
  cases rawData with
  | nil =>
    constructor
    · intro i hi
      have hi2 : i ∈ ([] : List String) := hi
      simp at hi2
    · rfl
  | cons firstRow rest =>
    by_cases hv : (validationErrors (rowKeys firstRow)).isEmpty = true
    · rw [processData_eq_valid firstRow rest hv]
      constructor
      · intro i hi
        have hi2 : i ∈ (pdBuild (firstRow :: rest)).orphanIds := by
          rw [← pd_outOrphans]
          exact hi
        have hi3 := pd_orphans_in_roots (firstRow :: rest) i hi2
        exact (pd_statsroots_iff (firstRow :: rest) i).mpr hi3
      · show (pdBuild (firstRow :: rest)).orphanIds.length +
            (((pdRootsSorted (firstRow :: rest)).tail).map
              (fun r => 1 + r.total_descendants)).sum =
          (outOrphans (pdStF (firstRow :: rest)).nodes).length +
            (((pdRootsSorted (firstRow :: rest)).tail).map
              (fun r => 1 + r.total_descendants)).sum
        rw [pd_outOrphans]
    · rw [processData_eq_invalid firstRow rest hv]
      constructor
      · intro i hi
        have hi2 : i ∈ ([] : List String) := hi
        simp at hi2
      · rfl

theorem spec_C4_witness :
    "A" ∈ outOrphans (processData orphanRows).flatNodes ∧
    "A" ∈ (processData orphanRows).stats.roots ∧
    (processData orphanRows).stats.orphanCount =
      (outOrphans (processData orphanRows).flatNodes).length +
      (((processData orphanRows).secondaryRoots).map
        (fun r => 1 + r.total_descendants)).sum := by
  have h := spec_C4 orphanRows
  exact ⟨by decide, h.1 "A" (by decide), h.2⟩

/-- C5 counterexample: a first row lacking the required column
`employee_id` but carrying a `reports_to_id` column is NOT rejected —
`processData` returns an empty errors list, refuting "missing required
columns → fatal". -/
theorem spec_C5_counterexample :
    (processData noIdRows).errors = [] ∧
    ((noIdRows.map rowKeys).head?.getD []).contains "employee_id" = false := by decide

/-- C5 (amended): construction fails fatally exactly on empty input, or when
the first row both lacks a required column AND has neither a
`reports_to_id` nor a `Reports To` column; a fatal failure yields no root,
no arena and no secondary roots. -/
theorem spec_C5 (rawData : List RawRow) :
    ((processData rawData).errors ≠ [] ↔ fatalCond rawData) ∧
    (fatalCond rawData →
      (processData rawData).root = none ∧
      (processData rawData).flatNodes = [] ∧
      (processData rawData).secondaryRoots = []) := by
  cases rawData with
  | nil =>
    constructor
    · constructor
      · intro _
        exact trivial
      · intro _
        rw [processData_nil]
        simp
    · intro _
      rw [processData_nil]
      exact ⟨rfl, rfl, rfl⟩
  | cons firstRow rest =>
    by_cases hvl : (validationErrors (rowKeys firstRow)).isEmpty = true
    · have hve : validationErrors (rowKeys firstRow) = [] := by
        cases hE : validationErrors (rowKeys firstRow) with
        | nil => rfl
        | cons a l =>
          rw [hE] at hvl
          simp at hvl
      have hnf : ¬ fatalCond (firstRow :: rest) := by
        intro hf
        exact (validationErrors_ne_iff (rowKeys firstRow)).mpr hf hve
      rw [processData_eq_valid firstRow rest hvl]
      constructor
      · constructor
        · intro h
          exact absurd (pd_errors (firstRow :: rest)) h
        · intro hf
          exact absurd hf hnf
      · intro hf
        exact absurd hf hnf
    · have hne : validationErrors (rowKeys firstRow) ≠ [] := by
        intro he
        rw [he] at hvl
        exact hvl rfl
      rw [processData_eq_invalid firstRow rest hvl]
      constructor
      · constructor
        · intro _
          exact (validationErrors_ne_iff (rowKeys firstRow)).mp hne
        · intro _
          exact hne
      · intro _
        exact ⟨rfl, rfl, rfl⟩

theorem spec_C5_witness :
    (processData ([] : List RawRow)).errors ≠ [] ∧
    (processData ([] : List RawRow)).root = none ∧
    (processData ([] : List RawRow)).flatNodes = [] := by
  have h := spec_C5 ([] : List RawRow)
  have hf : fatalCond ([] : List RawRow) := trivial
  exact ⟨h.1.mpr hf, (h.2 hf).1, (h.2 hf).2.1⟩

/-- C6 (evaluation at a failing input): on `pairRows` the root `"A"` has one
child, `soc_headcount = 1` (children count, as claimed) and
`soc_status = low` (headcount below the default low threshold 3, as
claimed), but `soc_fte` is 0 while the children's FTE sum is 1: the code
never writes `soc_fte`, so "soc_fte equals the sum of its children's fte
values" is false. -/
theorem spec_C6 :
    ((processData pairRows).root.map (·.id)) = some "A" ∧
    ((processData pairRows).root.map (·.soc_headcount)) = some 1 ∧
    ((processData pairRows).root.map (·.children.length)) = some 1 ∧
    ((processData pairRows).root.map (·.soc_status)) = some SoCStatus.low ∧
    childrenFteSum (processData pairRows).flatNodes "A" = 1 ∧
    ((processData pairRows).root.map (·.soc_fte)) = some 0 := by
  refine ⟨by decide, by decide, by decide, by decide, ?_, by decide⟩
  have hch : childrenOfN (processData pairRows).flatNodes "A" = ["B"] := by decide
  have hfte : ((alookup (processData pairRows).flatNodes "B").map (·.data.fte)).getD 0 =
      (1 : ℚ) := by decide
  simp only [childrenFteSum, hch, List.map_cons, List.map_nil, List.sum_cons,
    List.sum_nil, hfte, add_zero]

/-! ## Claim theorems: camera (C8, C9) -/

/-- C8: `fitToBounds` computes the scale
`min((w - 2p)/bounds.width, (h - 2p)/bounds.height)` clamped to
`[minZoom, maxZoom]`, and a translation mapping the center of the rect to
the center of the viewport; in particular the claimed 800×600 instance has
scale ≤ min(780/200, 560/200). -/
theorem spec_C8 (minZoom maxZoom fullWidth fullHeight : ℚ) (bounds : CamRect)
    (padding : ℚ) :
    (fitToBounds minZoom maxZoom fullWidth fullHeight bounds padding).k =
      max minZoom (min maxZoom
        (min ((fullWidth - padding * 2) / bounds.width)
          ((fullHeight - padding * 2) / bounds.height))) ∧
    (bounds.x + bounds.width / 2) *
        (fitToBounds minZoom maxZoom fullWidth fullHeight bounds padding).k +
      (fitToBounds minZoom maxZoom fullWidth fullHeight bounds padding).x =
      fullWidth / 2 ∧
    (bounds.y + bounds.height / 2) *
        (fitToBounds minZoom maxZoom fullWidth fullHeight bounds padding).k +
      (fitToBounds minZoom maxZoom fullWidth fullHeight bounds padding).y =
      fullHeight / 2 ∧
    (fitToBounds (1/10) 8 800 600 ⟨-100, -100, 200, 200⟩ 20).k ≤
      min (780/200 : ℚ) (560/200) := by
  refine ⟨rfl, ?_, ?_, ?_⟩
  · simp only [fitToBounds]
    ring
  · simp only [fitToBounds]
    ring
  · simp only [fitToBounds]
    norm_num [min_def, max_def]

/-- C9 counterexample: `resetView` and the auto-center-on-selection effect
set the transform directly, NOT through `constrainTransform`; with content
lying far from the origin the reset transform leaves the content's bounding
box entirely outside the viewport (its left edge maps beyond the right
viewport edge), and `constrainTransform` would have changed it. -/
theorem spec_C9_counterexample :
    constrainTransform (resetViewOp 800) (some ⟨10000, 20000, 10000, 20000⟩)
        800 600 ≠ resetViewOp 800 ∧
    ¬ contentNotLost (resetViewOp 800) ⟨10000, 20000, 10000, 20000⟩ 800 600 ∧
    ¬ contentNotLost (autoCenterOp 0 0 800 600) ⟨10000, 20000, 10000, 20000⟩
        800 600 := by
  refine ⟨?_, ?_, ?_⟩
  · intro h
    have hx := congrArg ViewportTransform.x h
    norm_num [constrainTransform, resetViewOp, MARGIN, min_def, max_def] at hx
  · norm_num [contentNotLost, resetViewOp]
  · norm_num [contentNotLost, autoCenterOp]

/-- C9 (amended): the operations that DO funnel through
`constrainTransform` — the constraint itself, zoomIn, zoomOut and the pan
drag — always leave the content's bounding box at least partially inside
the viewport (never entirely outside it), for any viewport at least 400px
wide and tall, well-formed bounds and nonnegative scale.  (`resetView` and
the auto-center effect bypass the constraint; see the counterexample.) -/
theorem spec_C9 (t : ViewportTransform) (b : LayoutBounds) (vw vh : ℚ)
    (hk : 0 ≤ t.k) (hx : b.minX ≤ b.maxX) (hy : b.minY ≤ b.maxY)
    (hvw : 400 ≤ vw) (hvh : 400 ≤ vh) (dragStart client : ℚ × ℚ) :
    contentNotLost (constrainTransform t (some b) vw vh) b vw vh ∧
    contentNotLost (zoomInOp t (some b) vw vh) b vw vh ∧
    contentNotLost (zoomOutOp t (some b) vw vh) b vw vh ∧
    contentNotLost (panMoveOp dragStart client t (some b) vw vh) b vw vh := by
  have core : ∀ s : ViewportTransform, 0 ≤ s.k →
      contentNotLost (constrainTransform s (some b) vw vh) b vw vh := by
    intro s hs
    have hpx : b.minX * s.k ≤ b.maxX * s.k := mul_le_mul_of_nonneg_right hx hs
    have hpy : b.minY * s.k ≤ b.maxY * s.k := mul_le_mul_of_nonneg_right hy hs
    have hABx : -b.maxX * s.k + MARGIN ≤ vw - b.minX * s.k - MARGIN := by
      unfold MARGIN
      linarith
    have hABy : -b.maxY * s.k + MARGIN ≤ vh - b.minY * s.k - MARGIN := by
      unfold MARGIN
      linarith
    have h1 : 0 ≤ b.maxX * s.k +
        max (-b.maxX * s.k + MARGIN) (min (vw - b.minX * s.k - MARGIN) s.x) := by
      have hm : -b.maxX * s.k + MARGIN ≤
          max (-b.maxX * s.k + MARGIN) (min (vw - b.minX * s.k - MARGIN) s.x) :=
        le_max_left _ _
      unfold MARGIN at hm ⊢
      linarith
    have h2 : b.minX * s.k +
        max (-b.maxX * s.k + MARGIN) (min (vw - b.minX * s.k - MARGIN) s.x) ≤ vw := by
      have hm : max (-b.maxX * s.k + MARGIN) (min (vw - b.minX * s.k - MARGIN) s.x) ≤
          vw - b.minX * s.k - MARGIN :=
        max_le hABx (min_le_left _ _)
      unfold MARGIN at hm ⊢
      linarith
    have h3 : 0 ≤ b.maxY * s.k +
        max (-b.maxY * s.k + MARGIN) (min (vh - b.minY * s.k - MARGIN) s.y) := by
      have hm : -b.maxY * s.k + MARGIN ≤
          max (-b.maxY * s.k + MARGIN) (min (vh - b.minY * s.k - MARGIN) s.y) :=
        le_max_left _ _
      unfold MARGIN at hm ⊢
      linarith
    have h4 : b.minY * s.k +
        max (-b.maxY * s.k + MARGIN) (min (vh - b.minY * s.k - MARGIN) s.y) ≤ vh := by
      have hm : max (-b.maxY * s.k + MARGIN) (min (vh - b.minY * s.k - MARGIN) s.y) ≤
          vh - b.minY * s.k - MARGIN :=
        max_le hABy (min_le_left _ _)
      unfold MARGIN at hm ⊢
      linarith
    exact ⟨h1, h2, h3, h4⟩
  refine ⟨core t hk, ?_, ?_, core _ hk⟩
  · exact core { t with k := min (t.k * (6/5)) 5 }
      (le_min (mul_nonneg hk (by norm_num)) (by norm_num))
  · exact core { t with k := max (t.k / (6/5)) (1/5) }
      (le_trans (by norm_num) (le_max_right (t.k / (6/5)) (1/5)))

theorem spec_C9_witness :
    (0 : ℚ) ≤ (⟨0, 0, 1⟩ : ViewportTransform).k ∧
    (400 : ℚ) ≤ 800 ∧
    contentNotLost
      (constrainTransform ⟨0, 0, 1⟩ (some ⟨0, 100, 0, 100⟩) 800 600)
      ⟨0, 100, 0, 100⟩ 800 600 ∧
    contentNotLost (panMoveOp (0, 0) (5, 5) ⟨0, 0, 1⟩ (some ⟨0, 100, 0, 100⟩) 800 600)
      ⟨0, 100, 0, 100⟩ 800 600 := by
  have h := spec_C9 ⟨0, 0, 1⟩ ⟨0, 100, 0, 100⟩ 800 600 (by norm_num) (by norm_num)
    (by norm_num) (by norm_num) (by norm_num) (0, 0) (5, 5)
  exact ⟨by norm_num, by norm_num, h.1, h.2.2.2⟩

/-! ## Lemmas: circle-view layout pipeline (C7) -/

theorem attach_map_fn {α β : Type} (l : List α) (f : α → β) :
    l.attach.map (fun x => f x.1) = l.map f := by
  rw [List.attach_map_val]

theorem LTree.ind (P : LTree → Prop)
    (h : ∀ d c ks, (∀ k ∈ ks, P k) → P (.mk d c ks)) : ∀ t, P t := by
  have H : ∀ n (t : LTree), sizeOf t ≤ n → P t := by
    intro n
    induction n with
    | zero =>
      intro t ht
      cases t with
      | mk d c ks =>
        simp only [LTree.mk.sizeOf_spec] at ht
        omega
    | succ n ih =>
      intro t ht
      cases t with
      | mk d c ks =>
        apply h
        intro k hk
        apply ih
        have hs := List.sizeOf_lt_of_mem hk
        simp only [LTree.mk.sizeOf_spec] at ht
        omega
  intro t
  exact H (sizeOf t) t le_rfl

theorem sortLTree_mk (before : String → String → Bool) (d : String)
    (c : Option String) (ks : List LTree) :
    sortLTree before (.mk d c ks) =
      .mk d c (sortForest before (ks.map (sortLTree before))) := by
  rw [sortLTree]
  rw [attach_map_fn]

theorem paintAll_mk (c : Option String) (d : String) (c0 : Option String)
    (ks : List LTree) :
    paintAll c (.mk d c0 ks) = .mk d c (ks.map (paintAll c)) := by
  rw [paintAll]
  rw [attach_map_fn]

theorem shapeOf_mk (d : String) (c : Option String) (ks : List LTree) :
    shapeOf (.mk d c ks) = .mk (ks.map shapeOf) := by
  rw [shapeOf]
  rw [attach_map_fn]

theorem decolor_mk (d : String) (c : Option String) (ks : List LTree) :
    decolor (.mk d c ks) = .mk d none (ks.map decolor) := by
  rw [decolor]
  rw [attach_map_fn]

theorem dept_decolor (t : LTree) : (decolor t).dept = t.dept := by
  cases t with
  | mk d c ks =>
    rw [decolor_mk]
    rfl

theorem decolor_paintAll (c : Option String) :
    ∀ t, decolor (paintAll c t) = decolor t := by
  apply LTree.ind
  intro d c0 ks ih
  rw [paintAll_mk, decolor_mk, decolor_mk, List.map_map]
  congr 1
  apply List.map_congr_left
  intro k hk
  exact ih k hk

theorem decolor_colorizeUnder (m : String → Option String) (t : LTree) :
    decolor (colorizeUnder m t) = decolor t := by
  cases t with
  | mk d c ks =>
    show decolor (.mk d c (ks.map (fun k => paintAll (m k.dept) k))) = _
    rw [decolor_mk, decolor_mk, List.map_map]
    congr 1
    apply List.map_congr_left
    intro k _
    exact decolor_paintAll (m k.dept) k

theorem shapeOf_decolor : ∀ t, shapeOf (decolor t) = shapeOf t := by
  apply LTree.ind
  intro d c ks ih
  rw [decolor_mk, shapeOf_mk, shapeOf_mk, List.map_map]
  congr 1
  apply List.map_congr_left
  intro k hk
  exact ih k hk

theorem insertForest_decolor (before : String → String → Bool) (a : LTree) :
    ∀ l : List LTree,
      insertForest before (decolor a) (l.map decolor) =
        (insertForest before a l).map decolor := by
  intro l
  induction l with
  | nil => rfl
  | cons b l ih =>
    show insertForest before (decolor a) (decolor b :: l.map decolor) = _
    unfold insertForest
    rw [dept_decolor, dept_decolor]
    by_cases h : before b.dept a.dept
    · rw [if_pos h, if_pos h]
      rw [List.map_cons, ih]
    · rw [if_neg h, if_neg h]
      rfl

theorem sortForest_decolor (before : String → String → Bool) :
    ∀ l : List LTree,
      sortForest before (l.map decolor) = (sortForest before l).map decolor := by
  intro l
  induction l with
  | nil => rfl
  | cons a l ih =>
    show sortForest before (decolor a :: l.map decolor) = _
    unfold sortForest
    rw [ih, insertForest_decolor]

theorem sortLTree_decolor (before : String → String → Bool) :
    ∀ t, sortLTree before (decolor t) = decolor (sortLTree before t) := by
  apply LTree.ind
  intro d c ks ih
  rw [decolor_mk, sortLTree_mk, sortLTree_mk, decolor_mk, List.map_map]
  have hmap : List.map (sortLTree before ∘ decolor) ks =
      List.map (decolor ∘ sortLTree before) ks := by
    apply List.map_congr_left
    intro k hk
    exact ih k hk
  rw [hmap, ← List.map_map, sortForest_decolor]

theorem shape_sort_colorize (before : String → String → Bool)
    (m : String → Option String) (t : LTree) :
    shapeOf (sortLTree before (colorizeUnder m t)) = shapeOf (sortLTree before t) := by
  calc shapeOf (sortLTree before (colorizeUnder m t))
      = shapeOf (decolor (sortLTree before (colorizeUnder m t))) :=
        (shapeOf_decolor _).symm
    _ = shapeOf (sortLTree before (decolor (colorizeUnder m t))) := by
        rw [sortLTree_decolor]
    _ = shapeOf (sortLTree before (decolor t)) := by
        rw [decolor_colorizeUnder]
    _ = shapeOf (decolor (sortLTree before t)) := by
        rw [sortLTree_decolor]
    _ = shapeOf (sortLTree before t) := shapeOf_decolor _

theorem shapeOf_colorizeUnder (m : String → Option String) (t : LTree) :
    shapeOf (colorizeUnder m t) = shapeOf t :=
  (shapeOf_decolor _).symm.trans
    ((congrArg shapeOf (decolor_colorizeUnder m t)).trans (shapeOf_decolor t))

/-! ## Claim theorem: layout determinism (C7) -/

/-- C7: layout is deterministic and idempotent.  With the d3 positional pass
modelled as an explicit function `pos` of the tree's shape only (the claim's
"no hidden randomness"), running the circle view's `layoutData` a second
time — on the tree as mutated by the first run's wedge-color write-back —
yields the same coordinates, and the org-chart view's positional pass is
likewise unaffected by that mutation: the color write-back never changes the
shape or the department order the comparator sees. -/
theorem spec_C7 (pos : STree → List (ℚ × ℚ)) (before : String → String → Bool)
    (t : LTree) :
    (layoutCircle pos before (layoutCircle pos before t).2).1 =
      (layoutCircle pos before t).1 ∧
    layoutChart pos (layoutCircle pos before t).2 = layoutChart pos t := by
  constructor
  · show pos (shapeOf (sortLTree before
        (colorizeUnder (deptColorMap (sortLTree before t)) t))) =
      pos (shapeOf (sortLTree before t))
    rw [shape_sort_colorize]
  · show pos (shapeOf (colorizeUnder (deptColorMap (sortLTree before t)) t)) =
      pos (shapeOf t)
    rw [shapeOf_colorizeUnder]

end OrgStruct
